import Mathlib

/-!
Shallow embedding of the SPORTON-AI tracking and metrics code
(`app/services/video/video_processor.py`,
`app/services/physical/physical_analyzer.py`,
`app/services/tactical/tactical_analyzer.py`,
`app/services/technical/technical_analyzer.py`) together with theorems
settling the frozen claims about it.

Pixel-level tracker state is modelled over `ℚ` (Python floats idealised as
exact rationals); metric quantities that the Python code derives through
`np.sqrt` are modelled over `ℝ` with `Real.sqrt`.
-/

namespace Sporton

/-- Python `int(...)` applied to a rational: truncation toward zero. -/
def pyInt (q : ℚ) : ℤ :=
  if 0 ≤ q then ⌊q⌋ else ⌈q⌉

/-! ## Bounding boxes and IoU (`VideoProcessor._calculate_iou`) -/

/-- An axis-aligned bounding box in `(x1, y1, x2, y2)` corner form. -/
structure Box where
  x1 : ℚ
  y1 : ℚ
  x2 : ℚ
  y2 : ℚ
deriving DecidableEq

/-- Intersection-over-union of two boxes, exactly as
`VideoProcessor._calculate_iou`: zero when the intersection is empty,
otherwise intersection area over union area. -/
def iou (b1 b2 : Box) : ℚ :=
  let x1 := max b1.x1 b2.x1
  let y1 := max b1.y1 b2.y1
  let x2 := min b1.x2 b2.x2
  let y2 := min b1.y2 b2.y2
  if x2 < x1 ∨ y2 < y1 then 0
  else
    let inter := (x2 - x1) * (y2 - y1)
    let area1 := (b1.x2 - b1.x1) * (b1.y2 - b1.y1)
    let area2 := (b2.x2 - b2.x1) * (b2.y2 - b2.y1)
    inter / (area1 + area2 - inter)

/-! ## Association engine (best-box selection in `process_video`, lines 279-301)

For each confirmed track the loop scans all current-frame YOLO boxes, fusing
IoU with an appearance-similarity term when the box carries features and the
track has a stored feature history, and keeps the box whose score strictly
exceeds the running maximum, initialised to the 0.3 match threshold.  The
cosine similarity itself is produced by an external library from externally
produced HOG features, so it enters the model as data attached to the box. -/

/-- One YOLO box as seen by the matching loop: its coordinates and, when the
box carried appearance features, the cosine similarity of those features with
the track's stored features (`1 - distance.cosine(...)`). -/
structure BoxData where
  box : Box
  sim : Option ℚ
deriving DecidableEq

/-- Fused match score for one (track, box) pair: `0.7*iou + 0.3*similarity`
when the box has features and the track has a feature history, plain IoU
otherwise (`process_video`, lines 284-297). -/
def pairScore (trackBox : Box) (hasHist : Bool) (bd : BoxData) : ℚ :=
  match bd.sim, hasHist with
  | some s, true => 7/10 * iou trackBox bd.box + 3/10 * s
  | _, _ => iou trackBox bd.box

/-- The running strict-argmax loop of `process_video` lines 281-301 over a
list of scores: `i` is the index of the next score, `m` the running maximum
(initially the 0.3 threshold), `b` the index of the best box so far. -/
def argmaxFrom (i : ℕ) (m : ℚ) (b : Option ℕ) : List ℚ → ℚ × Option ℕ
  | [] => (m, b)
  | s :: rest =>
    if s > m then argmaxFrom (i + 1) s (some i) rest
    else argmaxFrom (i + 1) m b rest

/-- Index of the box matched to one track: the strict running argmax of the
fused scores, with running maximum initialised to the 0.3 threshold. -/
def bestBox (trackBox : Box) (hasHist : Bool) (boxes : List BoxData) : Option ℕ :=
  (argmaxFrom 0 (3/10) none (boxes.map (pairScore trackBox hasHist))).2

/-- The per-frame association: every confirmed track independently selects
its best box; matched boxes are not removed from the candidate pool
(`yolo_boxes_current` is never mutated inside the track loop). -/
def assignTracks (tracks : List (Box × Bool)) (boxes : List BoxData) : List (Option ℕ) :=
  tracks.map (fun t => bestBox t.1 t.2 boxes)

/-- No detection is assigned to two distinct tracks. -/
def NoDoubleAssignment (l : List (Option ℕ)) : Prop :=
  l.Pairwise (fun a b => a.isSome → a ≠ b)

instance : DecidablePred NoDoubleAssignment := fun _ =>
  List.instDecidablePairwise _

/-! ## Track store (`Player`, `VideoProcessor._update_player_stats`) -/

/-- Append to a `deque(maxlen=30)`: once the window is full the oldest
(leftmost) entry is evicted before the new one is appended. -/
def appendBounded (l : List (ℚ × ℚ)) (x : ℚ × ℚ) : List (ℚ × ℚ) :=
  if l.length < 30 then l ++ [x] else l.tail ++ [x]

/-- The per-track mutable state of `Player.__init__`: the bounded position
window plus the running counters.  Histories not read by any accumulator
(bbox, pose, appearance and motion features) are omitted. -/
structure Player where
  id : ℕ
  positions : List (ℚ × ℚ)
  lastSeen : ℕ
  totalDistance : ℝ
  avgSpeed : ℝ
  maxSpeed : ℝ
  possessionFrames : ℕ

/-- A freshly created track holds exactly its initial position and zeroed
counters (`Player.__init__`). -/
def mkPlayer (id : ℕ) (initialPosition : ℚ × ℚ) : Player :=
  { id := id
    positions := [initialPosition]
    lastSeen := 0
    totalDistance := 0
    avgSpeed := 0
    maxSpeed := 0
    possessionFrames := 0 }

/-- Euclidean distance between two stored positions
(`VideoProcessor._calculate_distance`). -/
noncomputable def calculateDistance (p1 p2 : ℚ × ℚ) : ℝ :=
  Real.sqrt (((p2.1 : ℝ) - p1.1) ^ 2 + ((p2.2 : ℝ) - p1.2) ^ 2)

/-- Embeds `VideoProcessor._update_player_stats`: when the track already has a
position, accumulate distance, the running average speed and the maximum
speed (speed = distance / 3 because every third frame is processed); then
append the new position to the bounded window and stamp `last_seen`. -/
noncomputable def updatePlayerStats (p : Player) (newPosition : ℚ × ℚ)
    (frameCount : ℕ) : Player :=
  let p' :=
    if h : p.positions ≠ [] then
      let d := calculateDistance (p.positions.getLast h) newPosition
      let speed := d / 3
      { p with
        totalDistance := p.totalDistance + d
        avgSpeed := (p.avgSpeed * p.positions.length + speed) / (p.positions.length + 1)
        maxSpeed := max p.maxSpeed speed }
    else p
  { p' with
    positions := appendBounded p'.positions newPosition
    lastSeen := frameCount }

/-! ## Occlusion predictor (`_predict_next_position`, `_handle_occlusion`) -/

/-- The per-step velocity vectors of a position history (the loop at
`_handle_occlusion` lines 188-192: differences of consecutive positions). -/
def velocitiesOf (positions : List (ℚ × ℚ)) : List (ℚ × ℚ) :=
  (positions.zip positions.tail).map (fun pr => (pr.2.1 - pr.1.1, pr.2.2 - pr.1.2))

/-- Embeds `VideoProcessor._predict_next_position`: with at least 2 positions and at
least one velocity, the prediction is the last position plus the
componentwise arithmetic mean of the velocities; otherwise there is none. -/
def predictNextPosition (positions velocities : List (ℚ × ℚ)) : Option (ℚ × ℚ) :=
  if h : positions.length < 2 ∨ velocities.length < 1 then none
  else
    let lastPos := positions.getLast (by
      intro hnil
      subst hnil
      simp at h)
    some (lastPos.1 + (velocities.map Prod.fst).sum / velocities.length,
          lastPos.2 + (velocities.map Prod.snd).sum / velocities.length)

/-- The occlusion-record update of `_handle_occlusion` lines 177-181: every
other box whose IoU with the current box exceeds the 0.3 overlap threshold
is appended to the track's stored overlap record. -/
def occlusionRecordUpdate (record : List (ℕ × ℚ)) (currentBox : Box)
    (otherBoxes : List (ℕ × Box)) : List (ℕ × ℚ) :=
  record ++
    (otherBoxes.filter (fun ob => iou currentBox ob.2 > 3/10)).map
      (fun ob => (ob.1, iou currentBox ob.2))

/-- Embeds `VideoProcessor._handle_occlusion` for one track: extend the stored
overlap record (kept as the first component, mirroring the persistent
`self.occlusion_history` mutation); if the resulting record is nonempty and
the track exists with more than one stored position, also return the motion
prediction. -/
def handleOcclusion (record : List (ℕ × ℚ)) (currentBox : Box)
    (otherBoxes : List (ℕ × Box)) (playerPositions : Option (List (ℚ × ℚ))) :
    List (ℕ × ℚ) × Option (ℚ × ℚ) :=
  (occlusionRecordUpdate record currentBox otherBoxes,
    if (occlusionRecordUpdate record currentBox otherBoxes).length > 0 then
      match playerPositions with
      | some positions =>
        if positions.length > 1 then
          predictNextPosition positions (velocitiesOf positions)
        else none
      | none => none
    else none)

/-! ## Smoothing filter (`process_video`, lines 313-330) -/

/-- The exact confidence-weighted mean of a list of (position, confidence)
pairs, as the specification words it: the confidence-weighted sum of the
positions divided by the total confidence. -/
def exactWeightedMean (entries : List ((ℚ × ℚ) × ℚ)) : ℚ × ℚ :=
  (1 / (entries.map Prod.snd).sum) • (entries.map (fun e => e.2 • e.1)).sum

/-- The smoothed centre computed by `process_video` lines 326-330: each
coordinate is the confidence-weighted sum over the given entries divided by
the total confidence, truncated by Python `int(...)`. -/
def weightedCenter (entries : List ((ℚ × ℚ) × ℚ)) : ℚ × ℚ :=
  let totalConf := (entries.map Prod.snd).sum
  ((pyInt ((entries.map (fun e => e.1.1 * e.2)).sum / totalConf) : ℚ),
   (pyInt ((entries.map (fun e => e.1.2 * e.2)).sum / totalConf) : ℚ))

/-- The smoothing step of `process_video` lines 313-330: the raw
(position, confidence) pair is first appended to the per-track history; when
the history then holds more than 5 entries the committed centre is the
truncated confidence-weighted mean of the last 5 entries, otherwise the raw
centre is committed unchanged. -/
def smoothCenter (hist : List ((ℚ × ℚ) × ℚ)) (center : ℚ × ℚ) (conf : ℚ) :
    ℚ × ℚ :=
  let hist' := hist ++ [(center, conf)]
  if hist'.length > 5 then
    weightedCenter (hist'.drop (hist'.length - 5))
  else center

/-! ## Final statistics (`process_video`, lines 444-455) -/

/-- One entry of the `player_stats` mapping returned at the end of
`process_video`. -/
structure PlayerSummary where
  totalFrames : ℕ
  totalDistance : ℝ
  avgSpeed : ℝ
  maxSpeed : ℝ
  possessionPercentage : ℚ

/-- The per-track summary built by `process_video` lines 445-455:
`possession_percentage` divides the track's possession frames by a third of
the global frame count (the number of decoded video frames) when any frame
was read, and is 0 otherwise. -/
noncomputable def playerSummary (p : Player) (frameCount : ℕ) : PlayerSummary :=
  { totalFrames := p.positions.length
    totalDistance := p.totalDistance
    avgSpeed := p.avgSpeed
    maxSpeed := p.maxSpeed
    possessionPercentage :=
      if frameCount > 0 then
        ((p.possessionFrames : ℚ) / ((frameCount : ℚ) / 3)) * 100
      else 0 }

/-- The formula claimed by the specification for the possession percentage:
possession frames over the frames in which the track was observed, scaled
to a percentage. -/
def claimedPossessionPercentage (possessionFrames observedFrames : ℕ) : ℚ :=
  ((possessionFrames : ℚ) / (observedFrames : ℚ)) * 100

/-! ## Frame records consumed by the metrics engines

Each frame dictionary produced by `process_video` carries a `players` list
(ordered, the analyzers read entry 0's `position`) and an optional ball
entry; only the normalized positions are read by the quantitative
analyzers. -/

/-- One frame record as consumed by the metrics engines: the players'
normalized positions in order, and the ball's position when detected. -/
structure FrameRec where
  players : List (ℝ × ℝ)
  ball : Option (ℝ × ℝ)

/-- Python `np.mean(l) if l else 0`. -/
noncomputable def pymean (l : List ℝ) : ℝ :=
  if l.isEmpty then 0 else l.sum / l.length

/-- Python `max(l) if l else 0`. -/
noncomputable def pymax : List ℝ → ℝ
  | [] => 0
  | a :: t => t.foldl max a

/-! ## Physical metrics engine (`PhysicalAnalyzer`) -/

/-- Embeds `PhysicalAnalyzer._calculate_frame_distance`: the euclidean distance
between the first player's positions in two consecutive frames, 0 when
either frame has no players. -/
noncomputable def frameDistance (prev curr : FrameRec) : ℝ :=
  match prev.players, curr.players with
  | p :: _, q :: _ => Real.sqrt ((q.1 - p.1) ^ 2 + (q.2 - p.2) ^ 2)
  | _, _ => 0

/-- The per-step distances of a frame sequence: one entry per consecutive
pair of frames (the `for i in range(1, len(player_frames))` loops). -/
noncomputable def stepDistances (frames : List FrameRec) : List ℝ :=
  (frames.zip frames.tail).map (fun pr => frameDistance pr.1 pr.2)

/-- The per-step instantaneous speeds: step distance times the 30
frames-per-second factor (`speed = distance * 30`). -/
noncomputable def stepSpeeds (frames : List FrameRec) : List ℝ :=
  (stepDistances frames).map (fun d => d * 30)

/-- The distance breakdown returned by `_calculate_distances`. -/
structure DistanceResult where
  totalDistance : ℝ
  highIntensityDistance : ℝ
  sprintDistance : ℝ

/-- One iteration of the `_calculate_distances` loop: always accumulate the
total, and additionally the high-intensity bucket when speed > 7 and the
sprint bucket when speed > 8. -/
noncomputable def distancesStep (acc : DistanceResult) (d : ℝ) : DistanceResult :=
  let speed := d * 30
  let acc := { acc with totalDistance := acc.totalDistance + d }
  let acc := if speed > 7 then
    { acc with highIntensityDistance := acc.highIntensityDistance + d } else acc
  if speed > 8 then
    { acc with sprintDistance := acc.sprintDistance + d } else acc

/-- Embeds `PhysicalAnalyzer._calculate_distances`. -/
noncomputable def calculateDistances (frames : List FrameRec) : DistanceResult :=
  (stepDistances frames).foldl distancesStep ⟨0, 0, 0⟩

/-- The mutually exclusive speed-zone counters of `_calculate_speeds`. -/
structure ZoneCounts where
  walking : ℕ
  jogging : ℕ
  running : ℕ
  sprinting : ℕ
deriving DecidableEq

/-- One iteration of the `_calculate_speeds` classification chain. -/
noncomputable def zoneStep (z : ZoneCounts) (s : ℝ) : ZoneCounts :=
  if s ≤ 2 then { z with walking := z.walking + 1 }
  else if s ≤ 4 then { z with jogging := z.jogging + 1 }
  else if s ≤ 7 then { z with running := z.running + 1 }
  else { z with sprinting := z.sprinting + 1 }

/-- The speed analysis returned by `_calculate_speeds`: mean and maximum
instantaneous speed plus the four zone shares (percentages of steps once
any step exists, the raw zero counters otherwise). -/
structure SpeedResult where
  avgSpeed : ℝ
  maxSpeed : ℝ
  walking : ℝ
  jogging : ℝ
  running : ℝ
  sprinting : ℝ

/-- Embeds `PhysicalAnalyzer._calculate_speeds`. -/
noncomputable def calculateSpeeds (frames : List FrameRec) : SpeedResult :=
  let speeds := stepSpeeds frames
  let z := speeds.foldl zoneStep ⟨0, 0, 0, 0⟩
  let totalFrames := z.walking + z.jogging + z.running + z.sprinting
  let norm : ℕ → ℝ := fun c =>
    if totalFrames > 0 then ((c : ℝ) / totalFrames) * 100 else (c : ℝ)
  { avgSpeed := pymean speeds
    maxSpeed := pymax speeds
    walking := norm z.walking
    jogging := norm z.jogging
    running := norm z.running
    sprinting := norm z.sprinting }

/-- The sprint summary returned by `_analyze_sprints`. -/
structure SprintResult where
  totalSprints : ℕ
  avgSprintDistance : ℝ
  maxSprintDistance : ℝ

/-- One iteration of the `_analyze_sprints` loop over the step distances.
State: collected sprint distances, the distance of the sprint in progress,
and the `is_sprinting` flag. -/
noncomputable def sprintStep (st : List ℝ × ℝ × Bool) (d : ℝ) : List ℝ × ℝ × Bool :=
  if d * 30 > 8 then (st.1, st.2.1 + d, true)
  else if st.2.2 then
    ((if st.2.1 > 0 then st.1 ++ [st.2.1] else st.1), 0, false)
  else st

/-- The post-loop flush of `_analyze_sprints`: a sprint still in progress at
sequence end is appended. -/
noncomputable def sprintFinish (st : List ℝ × ℝ × Bool) : List ℝ :=
  if st.2.1 > 0 then st.1 ++ [st.2.1] else st.1

/-- The list of per-sprint distances collected by `_analyze_sprints`. -/
noncomputable def sprintDistancesOf (ds : List ℝ) : List ℝ :=
  sprintFinish (ds.foldl sprintStep ([], 0, false))

/-- Embeds `PhysicalAnalyzer._analyze_sprints`. -/
noncomputable def analyzeSprints (frames : List FrameRec) : SprintResult :=
  let sd := sprintDistancesOf (stepDistances frames)
  { totalSprints := sd.length
    avgSprintDistance := pymean sd
    maxSprintDistance := pymax sd }

/-- The effort analysis returned by `_analyze_effort`. -/
structure EffortResult where
  totalEffort : ℝ
  low : ℝ
  medium : ℝ
  high : ℝ

/-- The effort accumulators of the `_analyze_effort` loop. -/
structure EffortAcc where
  total : ℝ
  lo : ℕ
  med : ℕ
  hi : ℕ

/-- One iteration of the `_analyze_effort` loop: per-step effort is
`min(100, speed / 9 * 100)`, classified low below 50, medium below 80, high
otherwise. -/
noncomputable def effortStep (acc : EffortAcc) (s : ℝ) : EffortAcc :=
  let effort := min 100 (s / 9 * 100)
  let acc := { acc with total := acc.total + effort }
  if effort < 50 then { acc with lo := acc.lo + 1 }
  else if effort < 80 then { acc with med := acc.med + 1 }
  else { acc with hi := acc.hi + 1 }

/-- Embeds `PhysicalAnalyzer._analyze_effort`: the zone counters are normalized to
percentages of the step count, and the reported total effort is the
accumulated per-step effort divided by the number of frames. -/
noncomputable def analyzeEffort (frames : List FrameRec) : EffortResult :=
  let a := (stepSpeeds frames).foldl effortStep ⟨0, 0, 0, 0⟩
  let totalFrames := a.lo + a.med + a.hi
  let norm : ℕ → ℝ := fun c =>
    if totalFrames > 0 then ((c : ℝ) / totalFrames) * 100 else (c : ℝ)
  { totalEffort := if frames.isEmpty then 0 else a.total / frames.length
    low := norm a.lo
    medium := norm a.med
    high := norm a.hi }

/-- The full physical analysis result. -/
structure PhysicalResult where
  dist : DistanceResult
  speed : SpeedResult
  sprints : SprintResult
  effort : EffortResult

/-- Embeds `PhysicalAnalyzer._empty_analysis`: the all-zero result structure. -/
def emptyPhysicalAnalysis : PhysicalResult :=
  ⟨⟨0, 0, 0⟩, ⟨0, 0, 0, 0, 0, 0⟩, ⟨0, 0, 0⟩, ⟨0, 0, 0, 0⟩⟩

/-- Embeds `PhysicalAnalyzer.analyze`: the empty sequence short-circuits to the
empty analysis, otherwise the four sub-analyses run. -/
noncomputable def physicalAnalyze (frames : List FrameRec) : PhysicalResult :=
  if frames.isEmpty then emptyPhysicalAnalysis
  else ⟨calculateDistances frames, calculateSpeeds frames,
        analyzeSprints frames, analyzeEffort frames⟩

/-! ## Technical metrics engine (`TechnicalAnalyzer`) -/

/-- Embeds `TechnicalAnalyzer._calculate_ball_movement`: euclidean displacement. -/
noncomputable def calculateBallMovement (p1 p2 : ℝ × ℝ) : ℝ :=
  Real.sqrt ((p2.1 - p1.1) ^ 2 + (p2.2 - p1.2) ^ 2)

/-- Embeds `TechnicalAnalyzer._calculate_ball_velocity`: displacement times the
assumed 30 frames per second. -/
noncomputable def calculateBallVelocity (p1 p2 : ℝ × ℝ) : ℝ :=
  calculateBallMovement p1 p2 * 30

/-- Embeds `TechnicalAnalyzer._is_pass_successful`: the success check is an
unimplemented placeholder that always answers `True`. -/
def isPassSuccessful (currentFrame nextFrame : FrameRec) : Bool := true

/-- Embeds `TechnicalAnalyzer._is_shot_on_target`: placeholder, always `True`. -/
def isShotOnTarget (ballPosition : ℝ × ℝ) : Bool := true

/-- Embeds `TechnicalAnalyzer._is_goal`: placeholder, always `True`. -/
def isGoal (ballPosition : ℝ × ℝ) : Bool := true

/-- Embeds `TechnicalAnalyzer._is_player_in_possession`: the player is within the
possession distance threshold 2 of the ball. -/
noncomputable def isPlayerInPossession (playerPos ballPos : ℝ × ℝ) : Bool :=
  decide (calculateBallMovement playerPos ballPos < 2)

/-- The pass counters of `_analyze_passes`. -/
structure PassAcc where
  total : ℕ
  succ : ℕ
  long : ℕ
  short : ℕ
deriving DecidableEq

/-- One iteration of the `_analyze_passes` loop over consecutive frame
pairs: when both frames carry a ball and its displacement exceeds the 0.7
pass threshold, count a pass, classify it long above 20, and count it
successful when the (always-true) success check passes. -/
noncomputable def passStep (st : PassAcc) (pr : FrameRec × FrameRec) : PassAcc :=
  match pr.1.ball, pr.2.ball with
  | some b1, some b2 =>
    let mv := calculateBallMovement b1 b2
    if mv > 7/10 then
      let st := { st with total := st.total + 1 }
      let st := if mv > 20 then { st with long := st.long + 1 }
                else { st with short := st.short + 1 }
      if isPassSuccessful pr.1 pr.2 then { st with succ := st.succ + 1 } else st
    else st
  | _, _ => st

/-- The pass summary returned by `_analyze_passes`. -/
structure PassesResult where
  totalPasses : ℕ
  successfulPasses : ℕ
  passAccuracy : ℝ
  longPasses : ℕ
  shortPasses : ℕ

/-- Embeds `TechnicalAnalyzer._analyze_passes`. -/
noncomputable def analyzePasses (framesData : List FrameRec) : PassesResult :=
  let a := (framesData.zip framesData.tail).foldl passStep ⟨0, 0, 0, 0⟩
  { totalPasses := a.total
    successfulPasses := a.succ
    passAccuracy :=
      if a.total > 0 then ((a.succ : ℝ) / (a.total : ℝ)) * 100 else 0
    longPasses := a.long
    shortPasses := a.short }

/-- The shot summary returned by `_analyze_shots`. -/
structure ShotsResult where
  totalShots : ℕ
  shotsOnTarget : ℕ
  goals : ℕ
  shotAccuracy : ℝ

/-- One iteration of the `_analyze_shots` loop. -/
noncomputable def shotStep (st : ℕ × ℕ × ℕ) (pr : FrameRec × FrameRec) : ℕ × ℕ × ℕ :=
  match pr.1.ball, pr.2.ball with
  | some b1, some b2 =>
    if calculateBallVelocity b1 b2 > 8/10 then
      let st := (st.1 + 1, st.2.1, st.2.2)
      if isShotOnTarget b2 then
        if isGoal b2 then (st.1, st.2.1 + 1, st.2.2 + 1)
        else (st.1, st.2.1 + 1, st.2.2)
      else st
    else st
  | _, _ => st

/-- Embeds `TechnicalAnalyzer._analyze_shots`. -/
noncomputable def analyzeShots (framesData : List FrameRec) : ShotsResult :=
  let a := (framesData.zip framesData.tail).foldl shotStep (0, 0, 0)
  { totalShots := a.1
    shotsOnTarget := a.2.1
    goals := a.2.2
    shotAccuracy :=
      if a.1 > 0 then ((a.2.1 : ℝ) / (a.1 : ℝ)) * 100 else 0 }

/-- The possession summary returned by `_analyze_possession`. -/
structure PossessionResult where
  totalTouches : ℕ
  possessionDuration : ℝ
  possessionPercentage : ℝ

/-- One iteration of the `_analyze_possession` loop: every player within
the possession threshold of a detected ball counts one touch and a thirtieth
of a second of possession. -/
noncomputable def possessionStep (st : ℕ × ℝ) (f : FrameRec) : ℕ × ℝ :=
  match f.ball with
  | some b =>
    f.players.foldl
      (fun st2 p =>
        if isPlayerInPossession p b then (st2.1 + 1, st2.2 + 1 / 30) else st2) st
  | none => st

/-- Embeds `TechnicalAnalyzer._analyze_possession`. -/
noncomputable def analyzePossession (framesData : List FrameRec) : PossessionResult :=
  let a := framesData.foldl possessionStep (0, 0)
  let totalDuration := (framesData.length : ℝ) / 30
  { totalTouches := a.1
    possessionDuration := a.2
    possessionPercentage :=
      if totalDuration > 0 then (a.2 / totalDuration) * 100 else 0 }

/-- The tackle summary: `_analyze_tackles` is unimplemented and returns the
zero structure. -/
structure TacklesResult where
  successfulTackles : ℕ
  failedTackles : ℕ
  tackleSuccessRate : ℝ

/-- Embeds `TechnicalAnalyzer._analyze_tackles`. -/
def analyzeTackles (framesData : List FrameRec) : TacklesResult := ⟨0, 0, 0⟩

/-- The interception summary: `_analyze_interceptions` is unimplemented and
returns the zero structure. -/
structure InterceptionsResult where
  totalInterceptions : ℕ
  successfulInterceptions : ℕ

/-- Embeds `TechnicalAnalyzer._analyze_interceptions`. -/
def analyzeInterceptions (framesData : List FrameRec) : InterceptionsResult := ⟨0, 0⟩

/-- The full technical analysis result. -/
structure TechnicalResult where
  passes : PassesResult
  shots : ShotsResult
  possession : PossessionResult
  tackles : TacklesResult
  interceptions : InterceptionsResult

/-- Embeds `TechnicalAnalyzer.analyze`: no empty-input guard, the five sub-analyses
always run. -/
noncomputable def technicalAnalyze (framesData : List FrameRec) : TechnicalResult :=
  ⟨analyzePasses framesData, analyzeShots framesData,
   analyzePossession framesData, analyzeTackles framesData,
   analyzeInterceptions framesData⟩

/-! ## Tactical metrics engine (`TacticalAnalyzer.analyze` guard)

Only the entry guard and the empty result of the tactical analyzer are
relevant to the settled claims; the four sub-analyses invoked on nonempty
input (positioning, passing, off-ball movement, space utilization) are
abstracted as an explicit function parameter, and the theorems about the
guard hold for every instantiation of that parameter. -/

/-- The positioning fragment of a tactical result; `zoneCoverage` is the
zone-name-indexed mapping, empty in the empty analysis. -/
structure TacticalPositioning where
  heatMap : List (List ℝ)
  zoneCoverage : List (ℕ × ℝ)
  averagePosition : ℝ × ℝ

/-- The passing fragment of a tactical result. -/
structure TacticalPassing where
  totalPasses : ℕ
  successfulPasses : ℕ
  shortPasses : ℕ
  mediumPasses : ℕ
  longPasses : ℕ
  forwardPasses : ℕ
  backwardPasses : ℕ
  lateralPasses : ℕ

/-- The off-ball-movement fragment of a tactical result. -/
structure TacticalOffBall where
  movementScore : ℝ
  spaceCreation : ℝ
  supportRuns : ℕ

/-- The space-utilization fragment of a tactical result. -/
structure TacticalSpace where
  spaceScore : ℝ
  spaceCreated : ℝ
  spaceOccupied : ℝ

/-- The full tactical analysis result. -/
structure TacticalResult where
  positioning : TacticalPositioning
  passing : TacticalPassing
  offBall : TacticalOffBall
  space : TacticalSpace

/-- Embeds `TacticalAnalyzer._empty_analysis`: empty heat map and zone coverage,
origin average position, and zeroed passing/movement/space numbers. -/
def emptyTacticalAnalysis : TacticalResult :=
  ⟨⟨[], [], (0, 0)⟩, ⟨0, 0, 0, 0, 0, 0, 0, 0⟩, ⟨0, 0, 0⟩, ⟨0, 0, 0⟩⟩

/-- Embeds `TacticalAnalyzer.analyze`: when either the player frame sequence or the
team frame sequence is empty the empty analysis is returned; otherwise the
four sub-analyses (abstracted here as `fullAnalysis`) run. -/
def tacticalAnalyze (fullAnalysis : List FrameRec → List FrameRec → TacticalResult)
    (playerFrames teamFrames : List FrameRec) : TacticalResult :=
  if playerFrames.isEmpty || teamFrames.isEmpty then emptyTacticalAnalysis
  else fullAnalysis playerFrames teamFrames

/-! ## Specification-side definitions and concrete inputs -/

/-- The four mutually exclusive speed zones of the specification. -/
inductive SpeedZone where
  | walking
  | jogging
  | running
  | sprinting
deriving DecidableEq

/-- The zone a single instantaneous speed falls into, following the
classification chain of `_calculate_speeds`. -/
noncomputable def zoneOf (s : ℝ) : SpeedZone :=
  if s ≤ 2 then .walking
  else if s ≤ 4 then .jogging
  else if s ≤ 7 then .running
  else .sprinting

/-- Emit a finished run accumulator (reversed back into sequence order);
an empty accumulator emits nothing. -/
def emitRun (cur : List ℝ) : List (List ℝ) :=
  match cur with
  | [] => []
  | _ => [cur.reverse]

/-- Specification-side splitter: decompose the step-distance list into the
maximal runs of consecutive steps whose instantaneous speed (distance times
30) exceeds 8. `cur` holds the current run, most recent step first. -/
noncomputable def specSprintRunsAux (cur : List ℝ) : List ℝ → List (List ℝ)
  | [] => emitRun cur
  | d :: rest =>
    if d * 30 > 8 then specSprintRunsAux (d :: cur) rest
    else emitRun cur ++ specSprintRunsAux [] rest

/-- Specification wording of sprint segmentation: the maximal runs of
consecutive steps with instantaneous speed above 8. -/
noncomputable def specSprintRuns (ds : List ℝ) : List (List ℝ) :=
  specSprintRunsAux [] ds

/-- Scenario A of the specification: four frames whose single player moves
through `(0,0), (0,0.1), (0,0.25), (0,0.45)`. -/
noncomputable def scenarioFrames : List FrameRec :=
  [⟨[(0, 0)], none⟩, ⟨[(0, 1/10)], none⟩, ⟨[(0, 1/4)], none⟩, ⟨[(0, 9/20)], none⟩]

/-- A concrete track state: observed once, with one (hypothetical)
possession frame, in a run that decoded six video frames. -/
def c1Player : Player :=
  { id := 1
    positions := [(0, 0)]
    lastSeen := 3
    totalDistance := 0
    avgSpeed := 0
    maxSpeed := 0
    possessionFrames := 1 }

/-- A concrete track bounding box for the association counterexample. -/
def c2TrackBox : Box := ⟨0, 0, 10, 10⟩

/-- A single candidate detection coinciding with `c2TrackBox`. -/
def c2Boxes : List BoxData := [⟨⟨0, 0, 10, 10⟩, none⟩]

/-- A concrete bounding box for the occlusion scenario. -/
def c3Box : Box := ⟨0, 0, 4, 4⟩

/-- A concrete track whose position window is full (30 stored positions). -/
def c3Player : Player :=
  { id := 2
    positions := List.replicate 30 (0, 0)
    lastSeen := 0
    totalDistance := 0
    avgSpeed := 0
    maxSpeed := 0
    possessionFrames := 0 }

/-- Five stored (position, confidence) history entries at the origin with
unit confidence. -/
def c7Hist : List ((ℚ × ℚ) × ℚ) :=
  [((0, 0), 1), ((0, 0), 1), ((0, 0), 1), ((0, 0), 1), ((0, 0), 1)]

/-- A concrete track with a full position window at `(1, 2)`. -/
def c9Player : Player :=
  { id := 4
    positions := List.replicate 30 (1, 2)
    lastSeen := 0
    totalDistance := 0
    avgSpeed := 0
    maxSpeed := 0
    possessionFrames := 0 }

/-! ## General lemmas -/

/-- Truncation toward zero differs from the argument by less than 1. -/
theorem abs_pyInt_sub_lt_one (q : ℚ) : |(pyInt q : ℚ) - q| < 1 := by
  unfold pyInt
  split
  · rw [abs_sub_lt_iff]
    constructor
    · linarith [Int.floor_le q]
    · linarith [Int.lt_floor_add_one q]
  · rw [abs_sub_lt_iff]
    constructor
    · linarith [Int.ceil_lt_add_one q]
    · linarith [Int.le_ceil q]

/-- A box without appearance features is scored by IoU alone. -/
theorem pairScore_none (tb : Box) (hh : Bool) (box : Box) :
    pairScore tb hh ⟨box, none⟩ = iou tb box := by
  cases hh <;> rfl

/-- A box with features, matched against a track with feature history, is
scored by the 0.7/0.3 fusion. -/
theorem pairScore_some_true (tb : Box) (box : Box) (s : ℚ) :
    pairScore tb true ⟨box, some s⟩ = 7/10 * iou tb box + 3/10 * s := rfl

/-- The final state of the running argmax either is the initial state
unchanged, or points at an element of the list whose value is the final
running maximum, strictly above the initial maximum. -/
theorem argmaxFrom_spec (l : List ℚ) : ∀ (i : ℕ) (m : ℚ) (b : Option ℕ),
    (argmaxFrom i m b l = (m, b)) ∨
    (∃ k, ∃ hk : k < l.length,
      (argmaxFrom i m b l).2 = some (i + k) ∧
      (argmaxFrom i m b l).1 = l.get ⟨k, hk⟩ ∧
      m < (argmaxFrom i m b l).1) := by
  induction l with
  | nil => intro i m b; left; rfl
  | cons s rest ih =>
    intro i m b
    by_cases hs : s > m
    · right
      simp only [argmaxFrom, if_pos hs]
      rcases ih (i + 1) s (some i) with h | ⟨k, hk, h1, h2, h3⟩
      · refine ⟨0, by simp, ?_, ?_, ?_⟩
        · rw [h]; simp
        · rw [h]; simp
        · rw [h]; exact hs
      · refine ⟨k + 1, by simpa using Nat.succ_lt_succ hk, ?_, ?_, ?_⟩
        · rw [h1]; congr 1; omega
        · rw [h2]; simp
        · exact lt_trans hs h3
    · simp only [argmaxFrom, if_neg hs]
      rcases ih (i + 1) m b with h | ⟨k, hk, h1, h2, h3⟩
      · left; exact h
      · right
        refine ⟨k + 1, by simpa using Nat.succ_lt_succ hk, ?_, ?_, ?_⟩
        · rw [h1]; congr 1; omega
        · rw [h2]; simp
        · exact h3

/-- The final running maximum dominates the initial one and every score. -/
theorem argmaxFrom_max (l : List ℚ) : ∀ (i : ℕ) (m : ℚ) (b : Option ℕ),
    m ≤ (argmaxFrom i m b l).1 ∧ ∀ x ∈ l, x ≤ (argmaxFrom i m b l).1 := by
  induction l with
  | nil => intro i m b; exact ⟨le_refl m, by simp⟩
  | cons s rest ih =>
    intro i m b
    by_cases hs : s > m
    · simp only [argmaxFrom, if_pos hs]
      obtain ⟨h1, h2⟩ := ih (i + 1) s (some i)
      refine ⟨le_trans (le_of_lt hs) h1, ?_⟩
      intro x hx
      rcases List.mem_cons.mp hx with rfl | hx
      · exact h1
      · exact h2 x hx
    · simp only [argmaxFrom, if_neg hs]
      obtain ⟨h1, h2⟩ := ih (i + 1) m b
      refine ⟨h1, ?_⟩
      intro x hx
      rcases List.mem_cons.mp hx with rfl | hx
      · exact le_trans (le_of_not_lt hs) h1
      · exact h2 x hx

/-! ## Claim C1: possession percentage in the final per-track summary -/

/-- C1 counterexample: a track observed in exactly one processed frame with
one possession frame, in a run that decoded six video frames, is reported
with possession percentage 50, while the claimed formula
`possession_frames / observed_frames * 100` gives 100. -/
theorem c1_possession_counterexample :
    (playerSummary c1Player 6).possessionPercentage = 50 ∧
    claimedPossessionPercentage c1Player.possessionFrames
      (playerSummary c1Player 6).totalFrames = 100 ∧
    (playerSummary c1Player 6).possessionPercentage ≠
      claimedPossessionPercentage c1Player.possessionFrames
        (playerSummary c1Player 6).totalFrames := by
  refine ⟨?_, ?_, ?_⟩ <;>
    simp [playerSummary, claimedPossessionPercentage, c1Player] <;> norm_num

/-- C1 (amended): the final per-track summary reports
`possession_percentage` as the track's possession frame count divided by one
third of the number of decoded video frames, times 100 — equivalently
`300 * possession_frames / frame_count` — when at least one frame was
decoded, and 0 otherwise; the track's own observed frame count plays no
role. -/
theorem c1_possession_percentage (p : Player) (frameCount : ℕ) :
    (0 < frameCount →
      (playerSummary p frameCount).possessionPercentage =
        300 * (p.possessionFrames : ℚ) / (frameCount : ℚ)) ∧
    (frameCount = 0 →
      (playerSummary p frameCount).possessionPercentage = 0) := by
  constructor
  · intro h
    have hfc : (frameCount : ℚ) ≠ 0 := by
      exact_mod_cast Nat.pos_iff_ne_zero.mp h
    simp only [playerSummary, if_pos h]
    field_simp
    ring
  · intro h
    subst h
    simp [playerSummary]

/-- C1 witness: the amended formula evaluated at the concrete track. -/
theorem c1_possession_witness :
    (playerSummary c1Player 6).possessionPercentage =
      300 * (c1Player.possessionFrames : ℚ) / (6 : ℚ) :=
  (c1_possession_percentage c1Player 6).1 (by norm_num)

/-! ## Claim C2: the per-frame association -/

/-- C2 counterexample: two tracks with identical last boxes and a single
coinciding detection are both matched to that detection (index 0) — matched
detections are never removed from the candidate pool, so the association is
not injective on detections. -/
theorem c2_association_counterexample :
    assignTracks [(c2TrackBox, false), (c2TrackBox, false)] c2Boxes =
      [some 0, some 0] ∧
    ¬ NoDoubleAssignment
        (assignTracks [(c2TrackBox, false), (c2TrackBox, false)] c2Boxes) := by
  have hiou : iou c2TrackBox ⟨0, 0, 10, 10⟩ = 1 := by
    show iou ⟨0, 0, 10, 10⟩ ⟨0, 0, 10, 10⟩ = 1
    rw [iou]; norm_num
  have hp : pairScore c2TrackBox false ⟨⟨0, 0, 10, 10⟩, none⟩ = 1 := by
    rw [pairScore_none, hiou]
  have hb : bestBox c2TrackBox false c2Boxes = some 0 := by
    simp only [bestBox, c2Boxes, List.map, hp]
    rw [argmaxFrom, if_pos (by norm_num : (1 : ℚ) > 3/10), argmaxFrom]
  have ha : assignTracks [(c2TrackBox, false), (c2TrackBox, false)] c2Boxes =
      [some 0, some 0] := by
    simp [assignTracks, hb]
  refine ⟨ha, ?_⟩
  rw [ha]
  simp [NoDoubleAssignment]

/-- C2 (amended): each track is independently matched to at most one
detection, namely one whose fused score strictly exceeds the 0.3 minimum
match threshold and is maximal among all candidate scores for that track
(running strict argmax); when no candidate beats the threshold the track is
unmatched.  Matched detections are not removed from consideration, so two
tracks may be assigned the same detection: the assignment is a partial
function on tracks but not necessarily injective into detections. -/
theorem c2_association (trackBox : Box) (hasHist : Bool) (boxes : List BoxData) :
    (∀ j, bestBox trackBox hasHist boxes = some j →
      ∃ hj : j < boxes.length,
        3/10 < pairScore trackBox hasHist (boxes.get ⟨j, hj⟩) ∧
        ∀ bd ∈ boxes,
          pairScore trackBox hasHist bd ≤
            pairScore trackBox hasHist (boxes.get ⟨j, hj⟩)) ∧
    (bestBox trackBox hasHist boxes = none →
      ∀ bd ∈ boxes, pairScore trackBox hasHist bd ≤ 3/10) := by
  constructor
  · intro j hj
    unfold bestBox at hj
    rcases argmaxFrom_spec (boxes.map (pairScore trackBox hasHist)) 0 (3/10) none with
      h | ⟨k, hk, h1, h2, h3⟩
    · rw [h] at hj
      exact absurd hj (by simp)
    · rw [h1] at hj
      have hjk : j = k := by
        have := Option.some.inj hj
        omega
      subst hjk
      have hjlen : j < boxes.length := by
        simpa using hk
      refine ⟨hjlen, ?_, ?_⟩
      · have hget : (boxes.map (pairScore trackBox hasHist)).get ⟨j, hk⟩ =
            pairScore trackBox hasHist (boxes.get ⟨j, hjlen⟩) := by
          simp
        rw [hget] at h2
        rw [← h2]
        exact h3
      · intro bd hbd
        have hmem : pairScore trackBox hasHist bd ∈
            boxes.map (pairScore trackBox hasHist) :=
          List.mem_map_of_mem _ hbd
        have hle := (argmaxFrom_max (boxes.map (pairScore trackBox hasHist))
          0 (3/10) none).2 _ hmem
        have hget : (boxes.map (pairScore trackBox hasHist)).get ⟨j, hk⟩ =
            pairScore trackBox hasHist (boxes.get ⟨j, hjlen⟩) := by
          simp
        rw [hget] at h2
        rw [← h2]
        exact hle
  · intro hnone bd hbd
    unfold bestBox at hnone
    rcases argmaxFrom_spec (boxes.map (pairScore trackBox hasHist)) 0 (3/10) none with
      h | ⟨k, hk, h1, h2, h3⟩
    · have hmem : pairScore trackBox hasHist bd ∈
          boxes.map (pairScore trackBox hasHist) :=
        List.mem_map_of_mem _ hbd
      have hle := (argmaxFrom_max (boxes.map (pairScore trackBox hasHist))
        0 (3/10) none).2 _ hmem
      rw [h] at hle
      exact hle
    · rw [h1] at hnone
      exact absurd hnone (by simp)

/-- C2 witness: the amended argmax characterization evaluated at the
concrete track and detection pool of the counterexample. -/
theorem c2_association_witness :
    ∃ hj : 0 < c2Boxes.length,
      3/10 < pairScore c2TrackBox false (c2Boxes.get ⟨0, hj⟩) ∧
      ∀ bd ∈ c2Boxes,
        pairScore c2TrackBox false bd ≤
          pairScore c2TrackBox false (c2Boxes.get ⟨0, hj⟩) :=
  (c2_association c2TrackBox false c2Boxes).1 0 (by
    have hiou : iou c2TrackBox ⟨0, 0, 10, 10⟩ = 1 := by
      show iou ⟨0, 0, 10, 10⟩ ⟨0, 0, 10, 10⟩ = 1
      rw [iou]; norm_num
    have hp : pairScore c2TrackBox false ⟨⟨0, 0, 10, 10⟩, none⟩ = 1 := by
      rw [pairScore_none, hiou]
    simp only [bestBox, c2Boxes, List.map, hp]
    rw [argmaxFrom, if_pos (by norm_num : (1 : ℚ) > 3/10), argmaxFrom])

/-! ## Claim C3: occlusion prediction and history growth -/

/-- Summing consecutive differences of any rational-valued reading of the
positions telescopes to last minus first. -/
theorem telescope_sum (f : ℚ × ℚ → ℚ) :
    ∀ (ps : List (ℚ × ℚ)) (h : ps ≠ []),
      ((ps.zip ps.tail).map (fun pr => f pr.2 - f pr.1)).sum =
        f (ps.getLast h) - f (ps.head h) := by
  intro ps
  induction ps with
  | nil => intro h; exact absurd rfl h
  | cons a t ih =>
    intro h
    cases t with
    | nil => simp
    | cons b t' =>
      have hbt : (b :: t') ≠ [] := List.cons_ne_nil b t'
      have hrec := ih hbt
      simp only [List.tail_cons, List.head_cons] at hrec
      simp only [List.tail_cons, List.zip_cons_cons, List.map_cons,
        List.sum_cons, List.head_cons]
      rw [List.getLast_cons hbt, hrec]
      ring

/-- The number of per-step velocities is one less than the number of
positions. -/
theorem velocitiesOf_length (ps : List (ℚ × ℚ)) :
    (velocitiesOf ps).length = ps.length - 1 := by
  simp only [velocitiesOf, List.length_map, List.length_zip, List.length_tail]
  omega

/-- The committed position list of `_update_player_stats` is the bounded
append of the new position; the counter updates leave it untouched. -/
theorem updatePlayerStats_positions (p : Player) (x : ℚ × ℚ) (fc : ℕ) :
    (updatePlayerStats p x fc).positions = appendBounded p.positions x := by
  unfold updatePlayerStats
  split <;> rfl

/-- The bounded append grows the list by one strictly below the cap. -/
theorem appendBounded_length_lt (l : List (ℚ × ℚ)) (x : ℚ × ℚ)
    (h : l.length < 30) : (appendBounded l x).length = l.length + 1 := by
  unfold appendBounded
  rw [if_pos h]
  simp

/-- The bounded append at the cap evicts the oldest entry: the result is the
tail of the window followed by the new position. -/
theorem appendBounded_length_eq (l : List (ℚ × ℚ)) (x : ℚ × ℚ)
    (h : l.length = 30) : appendBounded l x = l.tail ++ [x] := by
  unfold appendBounded
  rw [if_neg (by omega)]

/-- The prediction handed back for a track with more than one stored
position and a nonempty overlap record. -/
theorem handleOcclusion_snd (record : List (ℕ × ℚ)) (box : Box)
    (others : List (ℕ × Box)) (ps : List (ℚ × ℚ)) (hrec : record ≠ [])
    (hlen : 1 < ps.length) :
    (handleOcclusion record box others (some ps)).2 =
      predictNextPosition ps (velocitiesOf ps) := by
  have hpos : 0 < (occlusionRecordUpdate record box others).length := by
    unfold occlusionRecordUpdate
    have := List.length_pos.mpr hrec
    simp only [List.length_append]
    omega
  show (if 0 < (occlusionRecordUpdate record box others).length then _ else _) = _
  rw [if_pos hpos, if_pos hlen]

/-- C3 counterexample: a track with a full 30-position window, occluded by
an overlapping box, does receive a motion prediction, yet its position
history length stays 30 instead of increasing by exactly 1. -/
theorem c3_occlusion_counterexample :
    c3Player.positions.length = 30 ∧
    ((handleOcclusion [] c3Box [(5, c3Box)] (some c3Player.positions)).2).isSome = true ∧
    (updatePlayerStats c3Player (1, 1) 9).positions.length = 30 := by
  have hlen : c3Player.positions.length = 30 := by
    simp [c3Player]
  refine ⟨hlen, ?_, ?_⟩
  · have hiou : iou c3Box c3Box = 1 := by
      show iou ⟨0, 0, 4, 4⟩ ⟨0, 0, 4, 4⟩ = 1
      rw [iou]; norm_num
    have hrecord : occlusionRecordUpdate [] c3Box [(5, c3Box)] = [(5, 1)] := by
      unfold occlusionRecordUpdate
      rw [List.filter_cons]
      simp only [hiou]
      rw [if_pos (by norm_num)]
      simp [hiou]
    have hpred : (handleOcclusion [] c3Box [(5, c3Box)] (some c3Player.positions)).2 =
        predictNextPosition c3Player.positions (velocitiesOf c3Player.positions) := by
      show (if 0 < (occlusionRecordUpdate [] c3Box [(5, c3Box)]).length then _ else _) = _
      rw [hrecord, if_pos (by simp), if_pos (by rw [hlen]; omega)]
    rw [hpred]
    unfold predictNextPosition
    rw [dif_neg]
    · rfl
    · push_neg
      constructor
      · rw [hlen]; omega
      · rw [velocitiesOf_length, hlen]; omega
  · rw [updatePlayerStats_positions, appendBounded_length_eq _ _ hlen]
    simp [c3Player]

/-- C3 (amended): a track whose overlap record is nonempty and which holds
at least two stored positions receives from the occlusion handler a
predicted position equal to its last position plus the arithmetic mean of
its per-step velocity vectors (the mean telescopes to
`(last - first) / (count - 1)`); the predictor yields nothing for a track
with fewer than two positions; and committing a position grows the history
by exactly 1 only while the window holds fewer than 30 entries. -/
theorem c3_occlusion (record : List (ℕ × ℚ)) (box : Box)
    (others : List (ℕ × Box)) (a b : ℚ × ℚ) (t : List (ℚ × ℚ)) (p : Player)
    (x : ℚ × ℚ) (fc : ℕ) :
    (record ≠ [] →
      (handleOcclusion record box others (some (a :: b :: t))).2 =
        some
          (((b :: t).getLast (List.cons_ne_nil b t)).1 +
             (((b :: t).getLast (List.cons_ne_nil b t)).1 - a.1) /
               ((t.length : ℚ) + 1),
           ((b :: t).getLast (List.cons_ne_nil b t)).2 +
             (((b :: t).getLast (List.cons_ne_nil b t)).2 - a.2) /
               ((t.length : ℚ) + 1))) ∧
    (∀ (ps vs : List (ℚ × ℚ)), ps.length < 2 →
      predictNextPosition ps vs = none) ∧
    (p.positions.length < 30 →
      (updatePlayerStats p x fc).positions.length = p.positions.length + 1) := by
  refine ⟨?_, ?_, ?_⟩
  · intro hrec
    have hne : (a :: b :: t) ≠ [] := List.cons_ne_nil _ _
    have hlen : 1 < (a :: b :: t).length := by simp
    rw [handleOcclusion_snd record box others _ hrec hlen]
    unfold predictNextPosition
    rw [dif_neg]
    · have hvlen : (velocitiesOf (a :: b :: t)).length = t.length + 1 := by
        rw [velocitiesOf_length]; simp
      have hfst : ((velocitiesOf (a :: b :: t)).map Prod.fst).sum =
          ((a :: b :: t).getLast hne).1 - a.1 := by
        have := telescope_sum Prod.fst (a :: b :: t) hne
        simp only [velocitiesOf, List.map_map]
        convert this using 2
      have hsnd : ((velocitiesOf (a :: b :: t)).map Prod.snd).sum =
          ((a :: b :: t).getLast hne).2 - a.2 := by
        have := telescope_sum Prod.snd (a :: b :: t) hne
        simp only [velocitiesOf, List.map_map]
        convert this using 2
      have hgl : (a :: b :: t).getLast hne = (b :: t).getLast (List.cons_ne_nil b t) :=
        List.getLast_cons _
      have hcast : ((t.length + 1 : ℕ) : ℚ) = (t.length : ℚ) + 1 := by
        push_cast; ring
      rw [hfst, hsnd, hvlen, hgl, hcast]
    · push_neg
      constructor
      · simp
      · rw [velocitiesOf_length]; simp
  · intro ps vs h
    unfold predictNextPosition
    rw [dif_pos (Or.inl h)]
  · intro h
    rw [updatePlayerStats_positions, appendBounded_length_lt _ _ h]

/-- C3 witness: the amended statement evaluated on a concrete occluded
two-position track and a concrete sub-cap commit. -/
theorem c3_occlusion_witness :
    (handleOcclusion [(5, 1)] c3Box [] (some [((0 : ℚ), (0 : ℚ)), (2, 4)])).2 =
      some (4, 8) ∧
    predictNextPosition [((1 : ℚ), (1 : ℚ))] [] = none ∧
    (updatePlayerStats (mkPlayer 3 (0, 0)) (1, 1) 3).positions.length = 2 := by
  refine ⟨?_, ?_, ?_⟩
  · have h := (c3_occlusion [(5, 1)] c3Box [] (0, 0) (2, 4) [] (mkPlayer 3 (0, 0))
      (1, 1) 3).1 (by simp)
    rw [h]
    norm_num
  · exact (c3_occlusion [(5, 1)] c3Box [] (0, 0) (2, 4) [] (mkPlayer 3 (0, 0))
      (1, 1) 3).2.1 [((1 : ℚ), (1 : ℚ))] [] (by simp)
  · have h := (c3_occlusion [(5, 1)] c3Box [] (0, 0) (2, 4) [] (mkPlayer 3 (0, 0))
      (1, 1) 3).2.2 (by simp [mkPlayer])
    rw [h]
    simp [mkPlayer]

/-! ## Claim C7: the smoothing filter -/

/-- First component of a componentwise list sum. -/
theorem fst_list_sum (l : List (ℚ × ℚ)) : l.sum.1 = (l.map Prod.fst).sum := by
  induction l with
  | nil => simp
  | cons a t ih => simp [ih]

/-- Second component of a componentwise list sum. -/
theorem snd_list_sum (l : List (ℚ × ℚ)) : l.sum.2 = (l.map Prod.snd).sum := by
  induction l with
  | nil => simp
  | cons a t ih => simp [ih]

/-- First component of the exact confidence-weighted mean. -/
theorem exactWeightedMean_fst (entries : List ((ℚ × ℚ) × ℚ)) :
    (exactWeightedMean entries).1 =
      (entries.map (fun e => e.1.1 * e.2)).sum / (entries.map Prod.snd).sum := by
  unfold exactWeightedMean
  rw [Prod.smul_fst, fst_list_sum, List.map_map]
  have hf : (Prod.fst ∘ fun (e : (ℚ × ℚ) × ℚ) => e.2 • e.1) =
      fun e => e.1.1 * e.2 := by
    funext e
    simp [mul_comm]
  rw [hf, smul_eq_mul, one_div, inv_mul_eq_div]

/-- Second component of the exact confidence-weighted mean. -/
theorem exactWeightedMean_snd (entries : List ((ℚ × ℚ) × ℚ)) :
    (exactWeightedMean entries).2 =
      (entries.map (fun e => e.1.2 * e.2)).sum / (entries.map Prod.snd).sum := by
  unfold exactWeightedMean
  rw [Prod.smul_snd, snd_list_sum, List.map_map]
  have hf : (Prod.snd ∘ fun (e : (ℚ × ℚ) × ℚ) => e.2 • e.1) =
      fun e => e.1.2 * e.2 := by
    funext e
    simp [mul_comm]
  rw [hf, smul_eq_mul, one_div, inv_mul_eq_div]

/-- The committed smoothed centre is the truncation of the exact weighted
mean, componentwise. -/
theorem weightedCenter_eq (entries : List ((ℚ × ℚ) × ℚ)) :
    weightedCenter entries =
      ((pyInt (exactWeightedMean entries).1 : ℚ),
       (pyInt (exactWeightedMean entries).2 : ℚ)) := by
  unfold weightedCenter
  rw [exactWeightedMean_fst, exactWeightedMean_snd]

/-- C7 counterexample: with five unit-confidence history entries at the
origin, the raw position `(1, 0)` is committed as `(0, 0)` — the integer
truncation of the confidence-weighted mean `(1/5, 0)` of the last five
entries, not that mean itself. -/
theorem c7_smoothing_counterexample :
    smoothCenter c7Hist (1, 0) 1 = (0, 0) ∧
    exactWeightedMean ((c7Hist ++ [((1, 0), 1)]).drop 1) = (1/5, 0) ∧
    smoothCenter c7Hist (1, 0) 1 ≠
      exactWeightedMean ((c7Hist ++ [((1, 0), 1)]).drop 1) := by
  have h1 : smoothCenter c7Hist (1, 0) 1 = (0, 0) := by
    unfold smoothCenter c7Hist
    norm_num [weightedCenter, pyInt]
  have h2 : exactWeightedMean ((c7Hist ++ [((1, 0), 1)]).drop 1) = (1/5, 0) := by
    unfold exactWeightedMean c7Hist
    norm_num [Prod.smul_mk, smul_eq_mul]
  refine ⟨h1, h2, ?_⟩
  rw [h1, h2]
  intro hcontra
  have := congrArg Prod.fst hcontra
  norm_num at this

/-- C7 (amended): once a track's stored history (including the current raw
entry) exceeds 5 entries, the committed position is the componentwise
integer truncation of the confidence-weighted mean of the last 5 stored
(position, confidence) entries — within 1 of that exact mean in each
coordinate — rather than the exact mean itself; with 5 or fewer stored
entries the raw position is committed unsmoothed. -/
theorem c7_smoothing (hist : List ((ℚ × ℚ) × ℚ)) (center : ℚ × ℚ) (conf : ℚ) :
    (5 < hist.length + 1 →
      smoothCenter hist center conf =
        ((pyInt (exactWeightedMean
            ((hist ++ [(center, conf)]).drop (hist.length + 1 - 5))).1 : ℚ),
         (pyInt (exactWeightedMean
            ((hist ++ [(center, conf)]).drop (hist.length + 1 - 5))).2 : ℚ))) ∧
    (hist.length + 1 ≤ 5 → smoothCenter hist center conf = center) ∧
    (5 < hist.length + 1 →
      |(smoothCenter hist center conf).1 -
        (exactWeightedMean
          ((hist ++ [(center, conf)]).drop (hist.length + 1 - 5))).1| < 1 ∧
      |(smoothCenter hist center conf).2 -
        (exactWeightedMean
          ((hist ++ [(center, conf)]).drop (hist.length + 1 - 5))).2| < 1) := by
  have hlen : (hist ++ [(center, conf)]).length = hist.length + 1 := by
    simp
  have ha : 5 < hist.length + 1 →
      smoothCenter hist center conf =
        ((pyInt (exactWeightedMean
            ((hist ++ [(center, conf)]).drop (hist.length + 1 - 5))).1 : ℚ),
         (pyInt (exactWeightedMean
            ((hist ++ [(center, conf)]).drop (hist.length + 1 - 5))).2 : ℚ)) := by
    intro h
    unfold smoothCenter
    dsimp only
    rw [hlen, if_pos h, weightedCenter_eq]
  refine ⟨ha, ?_, ?_⟩
  · intro h
    unfold smoothCenter
    dsimp only
    rw [hlen, if_neg (by omega)]
  · intro h
    rw [ha h]
    exact ⟨abs_pyInt_sub_lt_one _, abs_pyInt_sub_lt_one _⟩

/-- C7 witness: the amended statement evaluated at the concrete history. -/
theorem c7_smoothing_witness :
    smoothCenter c7Hist (1, 0) 1 =
      ((pyInt (exactWeightedMean
          ((c7Hist ++ [((1, 0), 1)]).drop (c7Hist.length + 1 - 5))).1 : ℚ),
       (pyInt (exactWeightedMean
          ((c7Hist ++ [((1, 0), 1)]).drop (c7Hist.length + 1 - 5))).2 : ℚ)) :=
  (c7_smoothing c7Hist (1, 0) 1).1 (by simp [c7Hist])

/-! ## Claim C9: the bounded position window -/

/-- One committed position never pushes a within-bounds window past 30. -/
theorem updatePlayerStats_length_le (p : Player) (x : ℚ × ℚ) (fc : ℕ)
    (h : p.positions.length ≤ 30) :
    (updatePlayerStats p x fc).positions.length ≤ 30 := by
  rw [updatePlayerStats_positions]
  by_cases hlt : p.positions.length < 30
  · rw [appendBounded_length_lt _ _ hlt]
    omega
  · have h30 : p.positions.length = 30 := by omega
    rw [appendBounded_length_eq _ _ h30]
    simp
    omega

/-- C9: starting from a fresh track, after any sequence of committed
positions the stored window never exceeds 30 entries, and a commit into a
full window evicts the oldest entry first (the result is the window's tail
followed by the new position). -/
theorem c9_bounded_window (id : ℕ) (init : ℚ × ℚ)
    (updates : List ((ℚ × ℚ) × ℕ)) :
    ((updates.foldl (fun p u => updatePlayerStats p u.1 u.2)
        (mkPlayer id init)).positions).length ≤ 30 ∧
    (∀ (p : Player) (x : ℚ × ℚ) (fc : ℕ), p.positions.length = 30 →
      (updatePlayerStats p x fc).positions = p.positions.tail ++ [x]) := by
  constructor
  · have hgen : ∀ (us : List ((ℚ × ℚ) × ℕ)) (p : Player),
        p.positions.length ≤ 30 →
        ((us.foldl (fun q u => updatePlayerStats q u.1 u.2) p).positions).length ≤ 30 := by
      intro us
      induction us with
      | nil => intro p hp; exact hp
      | cons u t ih =>
        intro p hp
        exact ih _ (updatePlayerStats_length_le p u.1 u.2 hp)
    exact hgen updates (mkPlayer id init) (by simp [mkPlayer])
  · intro p x fc hp
    rw [updatePlayerStats_positions, appendBounded_length_eq _ _ hp]

/-- C9 witness: the invariant after two commits on a fresh track, and the
eviction equation on a concrete full window. -/
theorem c9_bounded_window_witness :
    ((([((3, 3), 6), ((4, 4), 9)] : List ((ℚ × ℚ) × ℕ)).foldl
        (fun p u => updatePlayerStats p u.1 u.2)
        (mkPlayer 4 (0, 0))).positions).length ≤ 30 ∧
    (updatePlayerStats c9Player (3, 3) 12).positions =
      List.replicate 29 ((1 : ℚ), (2 : ℚ)) ++ [(3, 3)] := by
  constructor
  · exact (c9_bounded_window 4 (0, 0) [((3, 3), 6), ((4, 4), 9)]).1
  · have h := (c9_bounded_window 4 (0, 0) [((3, 3), 6), ((4, 4), 9)]).2
      c9Player (3, 3) 12 (by simp [c9Player])
    rw [h]
    simp [c9Player]

/-! ## Claim C10: every detected pass counts as successful -/

/-- One pass-loop iteration preserves `successful = total`, because the
success check is the always-true placeholder. -/
theorem passStep_succ_eq_total (st : PassAcc) (pr : FrameRec × FrameRec)
    (h : st.succ = st.total) : (passStep st pr).succ = (passStep st pr).total := by
  unfold passStep
  rcases hb1 : pr.1.ball with _ | b1 <;> rcases hb2 : pr.2.ball with _ | b2 <;>
    simp only [hb1, hb2]
  · exact h
  · exact h
  · exact h
  · split_ifs <;> simp_all [isPassSuccessful]

/-- The pass loop preserves `successful = total` from any state. -/
theorem pass_foldl_succ_eq_total (l : List (FrameRec × FrameRec)) :
    ∀ (st : PassAcc), st.succ = st.total →
      (l.foldl passStep st).succ = (l.foldl passStep st).total := by
  induction l with
  | nil => intro st h; exact h
  | cons pr t ih =>
    intro st h
    exact ih _ (passStep_succ_eq_total st pr h)

/-- C10: for every frame sequence, the technical pass analysis reports every
detected pass as successful, so `successful_passes = total_passes` and
`pass_accuracy` is 100 whenever any pass was detected and 0 otherwise. -/
theorem c10_pass_accuracy (framesData : List FrameRec) :
    (analyzePasses framesData).successfulPasses =
      (analyzePasses framesData).totalPasses ∧
    (analyzePasses framesData).passAccuracy =
      (if 0 < (analyzePasses framesData).totalPasses then 100 else 0) := by
  have hst := pass_foldl_succ_eq_total (framesData.zip framesData.tail)
    ⟨0, 0, 0, 0⟩ rfl
  constructor
  · exact hst
  · have hbr : (analyzePasses framesData).totalPasses =
        ((framesData.zip framesData.tail).foldl passStep ⟨0, 0, 0, 0⟩).total := rfl
    have hacc : (analyzePasses framesData).passAccuracy =
        (if ((framesData.zip framesData.tail).foldl passStep ⟨0, 0, 0, 0⟩).total > 0
         then ((((framesData.zip framesData.tail).foldl passStep
             ⟨0, 0, 0, 0⟩).succ : ℝ) /
           (((framesData.zip framesData.tail).foldl passStep
             ⟨0, 0, 0, 0⟩).total : ℝ)) * 100
         else 0) := rfl
    rw [hacc, hbr, hst]
    split_ifs with hpos
    · have hne : ((((framesData.zip framesData.tail).foldl passStep
          ⟨0, 0, 0, 0⟩).total : ℝ)) ≠ 0 := by
        exact_mod_cast Nat.pos_iff_ne_zero.mp hpos
      field_simp
    · rfl

/-! ## Claim C8: empty sequences give all-zero results -/

/-- C8: the empty player frame sequence produces the documented all-zero
result structure from each metrics engine — the physical and tactical
engines through their explicit empty-input guards (for the tactical engine
this holds whatever the nonempty-branch analysis would compute), the
technical engine because all its loops run zero iterations — and never an
error (every embedded analyzer is a total function). -/
theorem c8_empty_sequences :
    physicalAnalyze [] =
      ⟨⟨0, 0, 0⟩, ⟨0, 0, 0, 0, 0, 0⟩, ⟨0, 0, 0⟩, ⟨0, 0, 0, 0⟩⟩ ∧
    (∀ (fullAnalysis : List FrameRec → List FrameRec → TacticalResult)
       (teamFrames : List FrameRec),
      tacticalAnalyze fullAnalysis [] teamFrames = emptyTacticalAnalysis) ∧
    (∀ (fullAnalysis : List FrameRec → List FrameRec → TacticalResult)
       (playerFrames : List FrameRec),
      tacticalAnalyze fullAnalysis playerFrames [] = emptyTacticalAnalysis) ∧
    technicalAnalyze [] =
      ⟨⟨0, 0, 0, 0, 0⟩, ⟨0, 0, 0, 0⟩, ⟨0, 0, 0⟩, ⟨0, 0, 0⟩, ⟨0, 0⟩⟩ := by
  refine ⟨rfl, ?_, ?_, ?_⟩
  · intro fullAnalysis teamFrames
    simp [tacticalAnalyze]
  · intro fullAnalysis playerFrames
    simp [tacticalAnalyze]
  · have hposs : analyzePossession [] = ⟨0, 0, 0⟩ := by
      unfold analyzePossession
      norm_num
    unfold technicalAnalyze
    rw [hposs]
    rfl

/-! ## Claim C6: sprint segmentation -/

/-- Unfolding equation of the maximal-run splitter on the empty list. -/
theorem specSprintRunsAux_nil (cur : List ℝ) :
    specSprintRunsAux cur [] = emitRun cur := rfl

/-- Unfolding equation of the maximal-run splitter on a cons cell. -/
theorem specSprintRunsAux_cons (cur : List ℝ) (d : ℝ) (rest : List ℝ) :
    specSprintRunsAux cur (d :: rest) =
      if d * 30 > 8 then specSprintRunsAux (d :: cur) rest
      else emitRun cur ++ specSprintRunsAux [] rest := rfl

/-- The sprint loop, started with `acc` already collected and a partial run
whose steps all exceed sprint speed, flushes exactly the per-run sums of the
specification's maximal-run decomposition. -/
theorem sprint_foldl (ds : List ℝ) : ∀ (acc run : List ℝ),
    (∀ x ∈ run, x * 30 > 8) →
    sprintFinish (ds.foldl sprintStep (acc, run.sum, !run.isEmpty)) =
      acc ++ (specSprintRunsAux run ds).map List.sum := by
  induction ds with
  | nil =>
    intro acc run hrun
    rw [List.foldl_nil]
    cases run with
    | nil => simp [sprintFinish, specSprintRunsAux_nil, emitRun]
    | cons r rs =>
      have hpos : 0 < (r :: rs).sum :=
        List.sum_pos _ (fun x hx => by have := hrun x hx; linarith)
          (List.cons_ne_nil r rs)
      rw [specSprintRunsAux_nil]
      unfold sprintFinish emitRun
      rw [if_pos hpos]
      simp [List.sum_reverse]
      try ring
  | cons d rest ih =>
    intro acc run hrun
    rw [List.foldl_cons]
    by_cases hd : d * 30 > 8
    · have hstep : sprintStep (acc, run.sum, !run.isEmpty) d =
          (acc, (d :: run).sum, !(d :: run).isEmpty) := by
        unfold sprintStep
        rw [if_pos hd]
        simp [add_comm]
      rw [hstep, ih acc (d :: run) ?hall]
      case hall =>
        intro x hx
        rcases List.mem_cons.mp hx with rfl | hx
        · exact hd
        · exact hrun x hx
      rw [specSprintRunsAux_cons, if_pos hd]
    · cases run with
      | nil =>
        have hstep : sprintStep (acc, (([] : List ℝ)).sum,
            !(([] : List ℝ)).isEmpty) d =
            (acc, (([] : List ℝ)).sum, !(([] : List ℝ)).isEmpty) := by
          unfold sprintStep
          rw [if_neg hd]
          simp
        rw [hstep, ih acc [] (by simp)]
        rw [specSprintRunsAux_cons, if_neg hd]
        simp [emitRun]
      | cons r rs =>
        have hpos : 0 < (r :: rs).sum :=
          List.sum_pos _ (fun x hx => by have := hrun x hx; linarith)
            (List.cons_ne_nil r rs)
        have hstep : sprintStep (acc, (r :: rs).sum, !(r :: rs).isEmpty) d =
            (acc ++ [(r :: rs).sum], (([] : List ℝ)).sum,
              !(([] : List ℝ)).isEmpty) := by
          unfold sprintStep
          rw [if_neg hd]
          simp only [List.isEmpty_cons, Bool.not_false, if_true]
          rw [if_pos hpos]
          simp
        rw [hstep, ih (acc ++ [(r :: rs).sum]) [] (by simp)]
        rw [specSprintRunsAux_cons, if_neg hd]
        simp [emitRun, List.sum_reverse]
        ring

/-- C6: the sprint analysis collects exactly one distance per maximal run of
consecutive steps with instantaneous speed above 8 — the sum of the step
distances in that run, with a run still open at sequence end included — and
reports the count, mean and maximum of those per-run distances. -/
theorem c6_sprints (frames : List FrameRec) :
    sprintDistancesOf (stepDistances frames) =
      (specSprintRuns (stepDistances frames)).map List.sum ∧
    (analyzeSprints frames).totalSprints =
      (specSprintRuns (stepDistances frames)).length ∧
    (analyzeSprints frames).avgSprintDistance =
      pymean ((specSprintRuns (stepDistances frames)).map List.sum) ∧
    (analyzeSprints frames).maxSprintDistance =
      pymax ((specSprintRuns (stepDistances frames)).map List.sum) := by
  have hmain : sprintDistancesOf (stepDistances frames) =
      (specSprintRuns (stepDistances frames)).map List.sum := by
    have h := sprint_foldl (stepDistances frames) [] [] (by simp)
    simpa [sprintDistancesOf, specSprintRuns] using h
  refine ⟨hmain, ?_, ?_, ?_⟩
  · show (sprintDistancesOf (stepDistances frames)).length = _
    rw [hmain, List.length_map]
  · show pymean (sprintDistancesOf (stepDistances frames)) = _
    rw [hmain]
  · show pymax (sprintDistancesOf (stepDistances frames)) = _
    rw [hmain]

/-! ## Claim C4: effort analysis -/

/-- The effort loop equals, from any starting accumulator: the summed
per-step efforts and the counts of steps landing in each effort band. -/
theorem effort_foldl (l : List ℝ) : ∀ (a : EffortAcc),
    l.foldl effortStep a =
      ⟨a.total + (l.map (fun s => min 100 (s / 9 * 100))).sum,
       a.lo + l.countP (fun s => decide (min 100 (s / 9 * 100) < 50)),
       a.med + l.countP (fun s =>
         decide (¬ min 100 (s / 9 * 100) < 50 ∧ min 100 (s / 9 * 100) < 80)),
       a.hi + l.countP (fun s =>
         decide (¬ min 100 (s / 9 * 100) < 50 ∧ ¬ min 100 (s / 9 * 100) < 80))⟩ := by
  induction l with
  | nil => intro a; simp
  | cons s t ih =>
    intro a
    rw [List.foldl_cons, ih]
    by_cases h1 : min 100 (s / 9 * 100) < 50
    · have heff : effortStep a s =
          ⟨a.total + min 100 (s / 9 * 100), a.lo + 1, a.med, a.hi⟩ := by
        unfold effortStep
        dsimp only
        rw [if_pos h1]
      rw [heff]
      simp only [List.map_cons, List.sum_cons, List.countP_cons,
        EffortAcc.mk.injEq]
      refine ⟨by ring, ?_, ?_, ?_⟩ <;> simp [h1] <;> omega
    · by_cases h2 : min 100 (s / 9 * 100) < 80
      · have heff : effortStep a s =
            ⟨a.total + min 100 (s / 9 * 100), a.lo, a.med + 1, a.hi⟩ := by
          unfold effortStep
          dsimp only
          rw [if_neg h1, if_pos h2]
        rw [heff]
        simp only [List.map_cons, List.sum_cons, List.countP_cons,
          EffortAcc.mk.injEq]
        refine ⟨by ring, ?_, ?_, ?_⟩ <;> simp [h1, h2] <;> omega
      · have heff : effortStep a s =
            ⟨a.total + min 100 (s / 9 * 100), a.lo, a.med, a.hi + 1⟩ := by
          unfold effortStep
          dsimp only
          rw [if_neg h1, if_neg h2]
        rw [heff]
        simp only [List.map_cons, List.sum_cons, List.countP_cons,
          EffortAcc.mk.injEq]
        refine ⟨by ring, ?_, ?_, ?_⟩ <;> simp [h1, h2] <;> omega

/-- Each step lands in exactly one effort band: the three band counts add
up to the number of steps. -/
theorem effort_counts_partition (l : List ℝ) :
    l.countP (fun s => decide (min 100 (s / 9 * 100) < 50)) +
    l.countP (fun s =>
      decide (¬ min 100 (s / 9 * 100) < 50 ∧ min 100 (s / 9 * 100) < 80)) +
    l.countP (fun s =>
      decide (¬ min 100 (s / 9 * 100) < 50 ∧ ¬ min 100 (s / 9 * 100) < 80)) =
      l.length := by
  induction l with
  | nil => simp
  | cons s t ih =>
    simp only [List.countP_cons, List.length_cons]
    by_cases h1 : min 100 (s / 9 * 100) < 50 <;>
      by_cases h2 : min 100 (s / 9 * 100) < 80
    · have e1 : decide (min 100 (s / 9 * 100) < 50) = true := by simp [h1]
      have e2 : decide (¬ min 100 (s / 9 * 100) < 50 ∧
          min 100 (s / 9 * 100) < 80) = false := by simp [h1]
      have e3 : decide (¬ min 100 (s / 9 * 100) < 50 ∧
          ¬ min 100 (s / 9 * 100) < 80) = false := by simp [h1]
      rw [e1, e2, e3]
      simp only [if_true, if_false, Bool.false_eq_true]
      omega
    · have e1 : decide (min 100 (s / 9 * 100) < 50) = true := by simp [h1]
      have e2 : decide (¬ min 100 (s / 9 * 100) < 50 ∧
          min 100 (s / 9 * 100) < 80) = false := by simp [h1]
      have e3 : decide (¬ min 100 (s / 9 * 100) < 50 ∧
          ¬ min 100 (s / 9 * 100) < 80) = false := by simp [h1]
      rw [e1, e2, e3]
      simp only [if_true, if_false, Bool.false_eq_true]
      omega
    · have e1 : decide (min 100 (s / 9 * 100) < 50) = false := by simp [h1]
      have e2 : decide (¬ min 100 (s / 9 * 100) < 50 ∧
          min 100 (s / 9 * 100) < 80) = true := by simp [h1, h2]
      have e3 : decide (¬ min 100 (s / 9 * 100) < 50 ∧
          ¬ min 100 (s / 9 * 100) < 80) = false := by simp [h1, h2]
      rw [e1, e2, e3]
      simp only [if_true, if_false, Bool.false_eq_true]
      omega
    · have e1 : decide (min 100 (s / 9 * 100) < 50) = false := by simp [h1]
      have e2 : decide (¬ min 100 (s / 9 * 100) < 50 ∧
          min 100 (s / 9 * 100) < 80) = false := by simp [h1, h2]
      have e3 : decide (¬ min 100 (s / 9 * 100) < 50 ∧
          ¬ min 100 (s / 9 * 100) < 80) = true := by simp [h1, h2]
      rw [e1, e2, e3]
      simp only [if_true, if_false, Bool.false_eq_true]
      omega

/-- C4: the effort analysis computes per-step effort
`min(100, speed / 9 * 100)`, counts steps into the low `(<50)`,
medium `[50, 80)` and high `(≥80)` bands normalized to percentages of the
step count, and reports `total_effort` as the accumulated per-step effort
divided by the number of frames in the sequence (not the number of
steps). -/
theorem c4_effort (frames : List FrameRec) :
    (analyzeEffort frames).totalEffort =
      (if frames.isEmpty then 0
       else ((stepSpeeds frames).map (fun s => min 100 (s / 9 * 100))).sum /
         (frames.length : ℝ)) ∧
    (analyzeEffort frames).low =
      (if (stepSpeeds frames).length = 0 then 0
       else (((stepSpeeds frames).countP
           (fun s => decide (min 100 (s / 9 * 100) < 50)) : ℝ) /
         ((stepSpeeds frames).length : ℝ)) * 100) ∧
    (analyzeEffort frames).medium =
      (if (stepSpeeds frames).length = 0 then 0
       else (((stepSpeeds frames).countP
           (fun s => decide (50 ≤ min 100 (s / 9 * 100) ∧
             min 100 (s / 9 * 100) < 80)) : ℝ) /
         ((stepSpeeds frames).length : ℝ)) * 100) ∧
    (analyzeEffort frames).high =
      (if (stepSpeeds frames).length = 0 then 0
       else (((stepSpeeds frames).countP
           (fun s => decide (80 ≤ min 100 (s / 9 * 100))) : ℝ) /
         ((stepSpeeds frames).length : ℝ)) * 100) := by
  have hfold := effort_foldl (stepSpeeds frames) ⟨0, 0, 0, 0⟩
  have hpart := effort_counts_partition (stepSpeeds frames)
  have hmed : (stepSpeeds frames).countP (fun s =>
      decide (¬ min 100 (s / 9 * 100) < 50 ∧ min 100 (s / 9 * 100) < 80)) =
      (stepSpeeds frames).countP (fun s =>
        decide (50 ≤ min 100 (s / 9 * 100) ∧ min 100 (s / 9 * 100) < 80)) :=
    List.countP_congr (by
      intro x _
      simp [not_lt])
  have hhigh : (stepSpeeds frames).countP (fun s =>
      decide (¬ min 100 (s / 9 * 100) < 50 ∧ ¬ min 100 (s / 9 * 100) < 80)) =
      (stepSpeeds frames).countP (fun s =>
        decide (80 ≤ min 100 (s / 9 * 100))) :=
    List.countP_congr (by
      intro x _
      simp only [decide_eq_true_eq, not_lt]
      constructor
      · rintro ⟨_, h⟩; exact h
      · intro h; exact ⟨by linarith, h⟩)
  have hA : (stepSpeeds frames).foldl effortStep ⟨0, 0, 0, 0⟩ =
      ⟨((stepSpeeds frames).map (fun s => min 100 (s / 9 * 100))).sum,
       (stepSpeeds frames).countP (fun s => decide (min 100 (s / 9 * 100) < 50)),
       (stepSpeeds frames).countP (fun s =>
         decide (50 ≤ min 100 (s / 9 * 100) ∧ min 100 (s / 9 * 100) < 80)),
       (stepSpeeds frames).countP (fun s =>
         decide (80 ≤ min 100 (s / 9 * 100)))⟩ := by
    rw [hfold, ← hmed, ← hhigh]
    simp
  have hsum : (stepSpeeds frames).countP
        (fun s => decide (min 100 (s / 9 * 100) < 50)) +
      (stepSpeeds frames).countP (fun s =>
        decide (50 ≤ min 100 (s / 9 * 100) ∧ min 100 (s / 9 * 100) < 80)) +
      (stepSpeeds frames).countP (fun s =>
        decide (80 ≤ min 100 (s / 9 * 100))) = (stepSpeeds frames).length := by
    rw [← hmed, ← hhigh]
    exact hpart
  refine ⟨?_, ?_, ?_, ?_⟩
  · show (if frames.isEmpty then 0
        else ((stepSpeeds frames).foldl effortStep ⟨0, 0, 0, 0⟩).total /
          (frames.length : ℝ)) = _
    rw [hA]
  · show (if ((stepSpeeds frames).foldl effortStep ⟨0, 0, 0, 0⟩).lo +
          ((stepSpeeds frames).foldl effortStep ⟨0, 0, 0, 0⟩).med +
          ((stepSpeeds frames).foldl effortStep ⟨0, 0, 0, 0⟩).hi > 0
        then ((((stepSpeeds frames).foldl effortStep ⟨0, 0, 0, 0⟩).lo : ℝ) /
            ((((stepSpeeds frames).foldl effortStep ⟨0, 0, 0, 0⟩).lo +
              ((stepSpeeds frames).foldl effortStep ⟨0, 0, 0, 0⟩).med +
              ((stepSpeeds frames).foldl effortStep ⟨0, 0, 0, 0⟩).hi : ℕ) : ℝ)) * 100
        else (((stepSpeeds frames).foldl effortStep ⟨0, 0, 0, 0⟩).lo : ℝ)) = _
    rw [hA]
    dsimp only
    rw [hsum]
    rcases Nat.eq_zero_or_pos (stepSpeeds frames).length with hl | hl
    · rw [if_neg (by omega), if_pos hl]
      have : (stepSpeeds frames).countP
          (fun s => decide (min 100 (s / 9 * 100) < 50)) = 0 := by omega
      rw [this]
      norm_num
    · rw [if_pos hl, if_neg (by omega)]
  · show (if ((stepSpeeds frames).foldl effortStep ⟨0, 0, 0, 0⟩).lo +
          ((stepSpeeds frames).foldl effortStep ⟨0, 0, 0, 0⟩).med +
          ((stepSpeeds frames).foldl effortStep ⟨0, 0, 0, 0⟩).hi > 0
        then ((((stepSpeeds frames).foldl effortStep ⟨0, 0, 0, 0⟩).med : ℝ) /
            ((((stepSpeeds frames).foldl effortStep ⟨0, 0, 0, 0⟩).lo +
              ((stepSpeeds frames).foldl effortStep ⟨0, 0, 0, 0⟩).med +
              ((stepSpeeds frames).foldl effortStep ⟨0, 0, 0, 0⟩).hi : ℕ) : ℝ)) * 100
        else (((stepSpeeds frames).foldl effortStep ⟨0, 0, 0, 0⟩).med : ℝ)) = _
    rw [hA]
    dsimp only
    rw [hsum]
    rcases Nat.eq_zero_or_pos (stepSpeeds frames).length with hl | hl
    · rw [if_neg (by omega), if_pos hl]
      have : (stepSpeeds frames).countP (fun s =>
          decide (50 ≤ min 100 (s / 9 * 100) ∧ min 100 (s / 9 * 100) < 80)) = 0 := by
        omega
      rw [this]
      norm_num
    · rw [if_pos hl, if_neg (by omega)]
  · show (if ((stepSpeeds frames).foldl effortStep ⟨0, 0, 0, 0⟩).lo +
          ((stepSpeeds frames).foldl effortStep ⟨0, 0, 0, 0⟩).med +
          ((stepSpeeds frames).foldl effortStep ⟨0, 0, 0, 0⟩).hi > 0
        then ((((stepSpeeds frames).foldl effortStep ⟨0, 0, 0, 0⟩).hi : ℝ) /
            ((((stepSpeeds frames).foldl effortStep ⟨0, 0, 0, 0⟩).lo +
              ((stepSpeeds frames).foldl effortStep ⟨0, 0, 0, 0⟩).med +
              ((stepSpeeds frames).foldl effortStep ⟨0, 0, 0, 0⟩).hi : ℕ) : ℝ)) * 100
        else (((stepSpeeds frames).foldl effortStep ⟨0, 0, 0, 0⟩).hi : ℝ)) = _
    rw [hA]
    dsimp only
    rw [hsum]
    rcases Nat.eq_zero_or_pos (stepSpeeds frames).length with hl | hl
    · rw [if_neg (by omega), if_pos hl]
      have : (stepSpeeds frames).countP
          (fun s => decide (80 ≤ min 100 (s / 9 * 100))) = 0 := by omega
      rw [this]
      norm_num
    · rw [if_pos hl, if_neg (by omega)]

/-! ## Claim C5: speed zones and Scenario A -/

/-- Real square roots of explicit squares. -/
theorem sqrt_eval (x y : ℝ) (hy : 0 ≤ y) (h : x = y ^ 2) : Real.sqrt x = y := by
  rw [h]
  exact Real.sqrt_sq hy

/-- The classification loop counts, from any starting counters, exactly the
steps whose speed falls in each zone. -/
theorem zone_foldl (l : List ℝ) : ∀ z : ZoneCounts,
    l.foldl zoneStep z =
      ⟨z.walking + l.countP (fun s => decide (zoneOf s = SpeedZone.walking)),
       z.jogging + l.countP (fun s => decide (zoneOf s = SpeedZone.jogging)),
       z.running + l.countP (fun s => decide (zoneOf s = SpeedZone.running)),
       z.sprinting + l.countP (fun s => decide (zoneOf s = SpeedZone.sprinting))⟩ := by
  induction l with
  | nil => intro z; simp
  | cons s t ih =>
    intro z
    rw [List.foldl_cons, ih]
    by_cases h1 : s ≤ 2
    · have hz : zoneOf s = SpeedZone.walking := by
        unfold zoneOf; rw [if_pos h1]
      have hstep : zoneStep z s =
          ⟨z.walking + 1, z.jogging, z.running, z.sprinting⟩ := by
        unfold zoneStep; rw [if_pos h1]
      rw [hstep]
      simp only [List.countP_cons, hz, ZoneCounts.mk.injEq]
      refine ⟨?_, ?_, ?_, ?_⟩ <;> simp <;> omega
    · by_cases h2 : s ≤ 4
      · have hz : zoneOf s = SpeedZone.jogging := by
          unfold zoneOf; rw [if_neg h1, if_pos h2]
        have hstep : zoneStep z s =
            ⟨z.walking, z.jogging + 1, z.running, z.sprinting⟩ := by
          unfold zoneStep; rw [if_neg h1, if_pos h2]
        rw [hstep]
        simp only [List.countP_cons, hz, ZoneCounts.mk.injEq]
        refine ⟨?_, ?_, ?_, ?_⟩ <;> simp <;> omega
      · by_cases h3 : s ≤ 7
        · have hz : zoneOf s = SpeedZone.running := by
            unfold zoneOf; rw [if_neg h1, if_neg h2, if_pos h3]
          have hstep : zoneStep z s =
              ⟨z.walking, z.jogging, z.running + 1, z.sprinting⟩ := by
            unfold zoneStep; rw [if_neg h1, if_neg h2, if_pos h3]
          rw [hstep]
          simp only [List.countP_cons, hz, ZoneCounts.mk.injEq]
          refine ⟨?_, ?_, ?_, ?_⟩ <;> simp <;> omega
        · have hz : zoneOf s = SpeedZone.sprinting := by
            unfold zoneOf; rw [if_neg h1, if_neg h2, if_neg h3]
          have hstep : zoneStep z s =
              ⟨z.walking, z.jogging, z.running, z.sprinting + 1⟩ := by
            unfold zoneStep; rw [if_neg h1, if_neg h2, if_neg h3]
          rw [hstep]
          simp only [List.countP_cons, hz, ZoneCounts.mk.injEq]
          refine ⟨?_, ?_, ?_, ?_⟩ <;> simp <;> omega

/-- Every step is classified into exactly one speed zone. -/
theorem zone_counts_partition (l : List ℝ) :
    l.countP (fun s => decide (zoneOf s = SpeedZone.walking)) +
    l.countP (fun s => decide (zoneOf s = SpeedZone.jogging)) +
    l.countP (fun s => decide (zoneOf s = SpeedZone.running)) +
    l.countP (fun s => decide (zoneOf s = SpeedZone.sprinting)) = l.length := by
  induction l with
  | nil => simp
  | cons s t ih =>
    simp only [List.countP_cons, List.length_cons]
    rcases hz : zoneOf s <;> simp [hz] <;> omega

/-- C5: instantaneous speeds (step distance times 30) are classified into
exactly one of the four mutually exclusive zones with boundaries
walking `[0,2]`, jogging `(2,4]`, running `(4,7]`, sprinting `(7,∞)`, the
zone counts are normalized to percentages of the step count, and Scenario A
— positions `(0,0), (0,0.1), (0,0.25), (0,0.45)` — yields step speeds
`3, 4.5, 6` classified jogging, running, running, with sprint count 0. -/
theorem c5_speed_zones :
    (∀ s : ℝ, 0 ≤ s →
      ((zoneOf s = SpeedZone.walking ↔ s ≤ 2) ∧
       (zoneOf s = SpeedZone.jogging ↔ 2 < s ∧ s ≤ 4) ∧
       (zoneOf s = SpeedZone.running ↔ 4 < s ∧ s ≤ 7) ∧
       (zoneOf s = SpeedZone.sprinting ↔ 7 < s))) ∧
    (∀ frames : List FrameRec,
      ((stepSpeeds frames).foldl zoneStep ⟨0, 0, 0, 0⟩).walking +
      ((stepSpeeds frames).foldl zoneStep ⟨0, 0, 0, 0⟩).jogging +
      ((stepSpeeds frames).foldl zoneStep ⟨0, 0, 0, 0⟩).running +
      ((stepSpeeds frames).foldl zoneStep ⟨0, 0, 0, 0⟩).sprinting =
        (stepSpeeds frames).length) ∧
    (∀ frames : List FrameRec, (stepSpeeds frames).length ≠ 0 →
      (calculateSpeeds frames).walking =
        (((stepSpeeds frames).countP
            (fun s => decide (zoneOf s = SpeedZone.walking)) : ℝ) /
          ((stepSpeeds frames).length : ℝ)) * 100 ∧
      (calculateSpeeds frames).jogging =
        (((stepSpeeds frames).countP
            (fun s => decide (zoneOf s = SpeedZone.jogging)) : ℝ) /
          ((stepSpeeds frames).length : ℝ)) * 100 ∧
      (calculateSpeeds frames).running =
        (((stepSpeeds frames).countP
            (fun s => decide (zoneOf s = SpeedZone.running)) : ℝ) /
          ((stepSpeeds frames).length : ℝ)) * 100 ∧
      (calculateSpeeds frames).sprinting =
        (((stepSpeeds frames).countP
            (fun s => decide (zoneOf s = SpeedZone.sprinting)) : ℝ) /
          ((stepSpeeds frames).length : ℝ)) * 100) ∧
    (stepSpeeds scenarioFrames = [3, 9/2, 6] ∧
     (stepSpeeds scenarioFrames).foldl zoneStep ⟨0, 0, 0, 0⟩ = ⟨0, 1, 2, 0⟩ ∧
     (calculateSpeeds scenarioFrames).walking = 0 ∧
     (calculateSpeeds scenarioFrames).jogging = 100/3 ∧
     (calculateSpeeds scenarioFrames).running = 200/3 ∧
     (calculateSpeeds scenarioFrames).sprinting = 0 ∧
     (analyzeSprints scenarioFrames).totalSprints = 0) := by
  have hiff : ∀ s : ℝ, 0 ≤ s →
      ((zoneOf s = SpeedZone.walking ↔ s ≤ 2) ∧
       (zoneOf s = SpeedZone.jogging ↔ 2 < s ∧ s ≤ 4) ∧
       (zoneOf s = SpeedZone.running ↔ 4 < s ∧ s ≤ 7) ∧
       (zoneOf s = SpeedZone.sprinting ↔ 7 < s)) := by
    intro s _
    unfold zoneOf
    split_ifs with h1 h2 h3
    · refine ⟨⟨fun _ => h1, fun _ => rfl⟩, ?_, ?_, ?_⟩
      · exact ⟨fun hc => absurd hc (by decide), fun ⟨h, _⟩ => absurd h1 (by linarith)⟩
      · exact ⟨fun hc => absurd hc (by decide), fun ⟨h, _⟩ => absurd h1 (by linarith)⟩
      · exact ⟨fun hc => absurd hc (by decide), fun h => absurd h1 (by linarith)⟩
    · refine ⟨?_, ⟨fun _ => ⟨not_le.mp h1, h2⟩, fun _ => rfl⟩, ?_, ?_⟩
      · exact ⟨fun hc => absurd hc (by decide), fun h => absurd h h1⟩
      · exact ⟨fun hc => absurd hc (by decide), fun ⟨h, _⟩ => absurd h2 (by linarith)⟩
      · exact ⟨fun hc => absurd hc (by decide), fun h => absurd h2 (by linarith)⟩
    · refine ⟨?_, ?_, ⟨fun _ => ⟨not_le.mp h2, h3⟩, fun _ => rfl⟩, ?_⟩
      · exact ⟨fun hc => absurd hc (by decide), fun h => absurd h h1⟩
      · exact ⟨fun hc => absurd hc (by decide), fun ⟨_, h⟩ => absurd h h2⟩
      · exact ⟨fun hc => absurd hc (by decide), fun h => absurd h3 (by linarith)⟩
    · refine ⟨?_, ?_, ?_, ⟨fun _ => not_le.mp h3, fun _ => rfl⟩⟩
      · exact ⟨fun hc => absurd hc (by decide), fun h => absurd h h1⟩
      · exact ⟨fun hc => absurd hc (by decide), fun ⟨_, h⟩ => absurd h h2⟩
      · exact ⟨fun hc => absurd hc (by decide), fun ⟨_, h⟩ => absurd h h3⟩
  have hcounts : ∀ frames : List FrameRec,
      ((stepSpeeds frames).foldl zoneStep ⟨0, 0, 0, 0⟩).walking +
      ((stepSpeeds frames).foldl zoneStep ⟨0, 0, 0, 0⟩).jogging +
      ((stepSpeeds frames).foldl zoneStep ⟨0, 0, 0, 0⟩).running +
      ((stepSpeeds frames).foldl zoneStep ⟨0, 0, 0, 0⟩).sprinting =
        (stepSpeeds frames).length := by
    intro frames
    rw [zone_foldl]
    dsimp only
    simpa using zone_counts_partition (stepSpeeds frames)
  have hnorm : ∀ frames : List FrameRec, (stepSpeeds frames).length ≠ 0 →
      (calculateSpeeds frames).walking =
        (((stepSpeeds frames).countP
            (fun s => decide (zoneOf s = SpeedZone.walking)) : ℝ) /
          ((stepSpeeds frames).length : ℝ)) * 100 ∧
      (calculateSpeeds frames).jogging =
        (((stepSpeeds frames).countP
            (fun s => decide (zoneOf s = SpeedZone.jogging)) : ℝ) /
          ((stepSpeeds frames).length : ℝ)) * 100 ∧
      (calculateSpeeds frames).running =
        (((stepSpeeds frames).countP
            (fun s => decide (zoneOf s = SpeedZone.running)) : ℝ) /
          ((stepSpeeds frames).length : ℝ)) * 100 ∧
      (calculateSpeeds frames).sprinting =
        (((stepSpeeds frames).countP
            (fun s => decide (zoneOf s = SpeedZone.sprinting)) : ℝ) /
          ((stepSpeeds frames).length : ℝ)) * 100 := by
    intro frames hlen
    have hsum := hcounts frames
    have hfold := zone_foldl (stepSpeeds frames) ⟨0, 0, 0, 0⟩
    refine ⟨?_, ?_, ?_, ?_⟩ <;>
    · show (if ((stepSpeeds frames).foldl zoneStep ⟨0, 0, 0, 0⟩).walking +
            ((stepSpeeds frames).foldl zoneStep ⟨0, 0, 0, 0⟩).jogging +
            ((stepSpeeds frames).foldl zoneStep ⟨0, 0, 0, 0⟩).running +
            ((stepSpeeds frames).foldl zoneStep ⟨0, 0, 0, 0⟩).sprinting > 0
          then _ else _) = _
      rw [if_pos (by omega)]
      rw [hsum, hfold]
      dsimp only
      norm_num
  refine ⟨hiff, hcounts, hnorm, ?_⟩
  have hd1 : frameDistance ⟨[(0, 0)], none⟩ ⟨[(0, 1/10)], none⟩ = 1/10 := by
    show Real.sqrt (((0 : ℝ) - 0) ^ 2 + ((1/10 : ℝ) - 0) ^ 2) = 1/10
    exact sqrt_eval _ _ (by norm_num) (by norm_num)
  have hd2 : frameDistance ⟨[(0, 1/10)], none⟩ ⟨[(0, 1/4)], none⟩ = 3/20 := by
    show Real.sqrt (((0 : ℝ) - 0) ^ 2 + ((1/4 : ℝ) - 1/10) ^ 2) = 3/20
    exact sqrt_eval _ _ (by norm_num) (by norm_num)
  have hd3 : frameDistance ⟨[(0, 1/4)], none⟩ ⟨[(0, 9/20)], none⟩ = 1/5 := by
    show Real.sqrt (((0 : ℝ) - 0) ^ 2 + ((9/20 : ℝ) - 1/4) ^ 2) = 1/5
    exact sqrt_eval _ _ (by norm_num) (by norm_num)
  have hsd : stepDistances scenarioFrames = [1/10, 3/20, 1/5] := by
    unfold stepDistances scenarioFrames
    simp only [List.tail_cons, List.zip_cons_cons, List.zip_nil_right,
      List.map_cons, List.map_nil]
    rw [hd1, hd2, hd3]
  have hss : stepSpeeds scenarioFrames = [3, 9/2, 6] := by
    unfold stepSpeeds
    rw [hsd]
    norm_num
  have hz1 : zoneStep ⟨0, 0, 0, 0⟩ (3 : ℝ) = ⟨0, 1, 0, 0⟩ := by
    unfold zoneStep
    rw [if_neg (by norm_num), if_pos (by norm_num)]
  have hz2 : zoneStep ⟨0, 1, 0, 0⟩ ((9 : ℝ)/2) = ⟨0, 1, 1, 0⟩ := by
    unfold zoneStep
    rw [if_neg (by norm_num), if_neg (by norm_num), if_pos (by norm_num)]
  have hz3 : zoneStep ⟨0, 1, 1, 0⟩ (6 : ℝ) = ⟨0, 1, 2, 0⟩ := by
    unfold zoneStep
    rw [if_neg (by norm_num), if_neg (by norm_num), if_pos (by norm_num)]
  have hzfold : (stepSpeeds scenarioFrames).foldl zoneStep ⟨0, 0, 0, 0⟩ =
      ⟨0, 1, 2, 0⟩ := by
    rw [hss, List.foldl_cons, hz1, List.foldl_cons, hz2, List.foldl_cons, hz3,
      List.foldl_nil]
  have hlen3 : (stepSpeeds scenarioFrames).length = 3 := by
    rw [hss]
    rfl
  have hnorms := hnorm scenarioFrames (by omega)
  have hcountw : (stepSpeeds scenarioFrames).countP
      (fun s => decide (zoneOf s = SpeedZone.walking)) = 0 := by
    have := zone_foldl (stepSpeeds scenarioFrames) ⟨0, 0, 0, 0⟩
    rw [hzfold] at this
    have := congrArg ZoneCounts.walking this
    simpa using this.symm
  have hcountj : (stepSpeeds scenarioFrames).countP
      (fun s => decide (zoneOf s = SpeedZone.jogging)) = 1 := by
    have := zone_foldl (stepSpeeds scenarioFrames) ⟨0, 0, 0, 0⟩
    rw [hzfold] at this
    have := congrArg ZoneCounts.jogging this
    simpa using this.symm
  have hcountr : (stepSpeeds scenarioFrames).countP
      (fun s => decide (zoneOf s = SpeedZone.running)) = 2 := by
    have := zone_foldl (stepSpeeds scenarioFrames) ⟨0, 0, 0, 0⟩
    rw [hzfold] at this
    have := congrArg ZoneCounts.running this
    simpa using this.symm
  have hcounts' : (stepSpeeds scenarioFrames).countP
      (fun s => decide (zoneOf s = SpeedZone.sprinting)) = 0 := by
    have := zone_foldl (stepSpeeds scenarioFrames) ⟨0, 0, 0, 0⟩
    rw [hzfold] at this
    have := congrArg ZoneCounts.sprinting this
    simpa using this.symm
  refine ⟨hss, hzfold, ?_, ?_, ?_, ?_, ?_⟩
  · rw [hnorms.1, hcountw, hlen3]
    norm_num
  · rw [hnorms.2.1, hcountj, hlen3]
    norm_num
  · rw [hnorms.2.2.1, hcountr, hlen3]
    norm_num
  · rw [hnorms.2.2.2, hcounts', hlen3]
    norm_num
  · show (sprintDistancesOf (stepDistances scenarioFrames)).length = 0
    rw [hsd]
    have t1 : sprintStep (([] : List ℝ), (0 : ℝ), false) ((1 : ℝ)/10) =
        ([], 0, false) := by
      unfold sprintStep
      rw [if_neg (by norm_num)]
      rfl
    have t2 : sprintStep (([] : List ℝ), (0 : ℝ), false) ((3 : ℝ)/20) =
        ([], 0, false) := by
      unfold sprintStep
      rw [if_neg (by norm_num)]
      rfl
    have t3 : sprintStep (([] : List ℝ), (0 : ℝ), false) ((1 : ℝ)/5) =
        ([], 0, false) := by
      unfold sprintStep
      rw [if_neg (by norm_num)]
      rfl
    unfold sprintDistancesOf
    rw [List.foldl_cons, t1, List.foldl_cons, t2, List.foldl_cons, t3,
      List.foldl_nil]
    unfold sprintFinish
    rw [if_neg (by norm_num)]
    rfl

/-- C5 witness: the jogging-interval characterization at speed 3 and the
normalized walking share on the concrete Scenario A sequence. -/
theorem c5_speed_zones_witness :
    (zoneOf 3 = SpeedZone.jogging ↔ 2 < (3 : ℝ) ∧ (3 : ℝ) ≤ 4) ∧
    (calculateSpeeds scenarioFrames).walking =
      (((stepSpeeds scenarioFrames).countP
          (fun s => decide (zoneOf s = SpeedZone.walking)) : ℝ) /
        ((stepSpeeds scenarioFrames).length : ℝ)) * 100 := by
  constructor
  · exact (c5_speed_zones.1 3 (by norm_num)).2.1
  · have hlen : (stepSpeeds scenarioFrames).length ≠ 0 := by
      rw [c5_speed_zones.2.2.2.1]
      simp
    exact (c5_speed_zones.2.2.1 scenarioFrames hlen).1

end Sporton
